import Mathlib

/-!
Verification of the staking-api-service stats/delegation slice.

The MongoDB collections are embedded as functional maps `String → Option doc`
(`none` = document absent).  A `$inc` upsert reads the current document
(absent decoding to all-zero counters, as the Go driver does), adds the
delta and stores the result.  Multi-document transactions are embedded as
pure state transformers returning `Except`: an error result models a rolled
back transaction (the caller keeps the previous state), so partial
application is not representable — which is exactly the atomicity contract
the code obtains from `session.WithTransaction`.

Randomness (`rand.Intn(LogicalShardCount)`) is embedded as an explicit
shard-choice argument; theorems quantify over every choice in range.

Machine integers: counter accumulators are Mongo 64-bit integers modelled
as unbounded `Int` (no theorem below drives them near the boundary), but the
source-level conversion `int64(amount)` of a `uint64` amount, and the Go
negation `-int64(amount)`, are modelled exactly (two's complement wrap).
-/

set_option maxHeartbeats 1000000

namespace StakingApi

/-- Deployment configuration: `LogicalShardCount` and `DbBatchSizeLimit`
from `db.cfg`. -/
structure Config where
  logicalShardCount : Nat
  dbBatchSizeLimit : Nat

/-! ### Decimal formatting (mirrors `fmt.Sprint(n)` / `fmt.Sprintf("%d", n)`) -/

/-- One decimal digit character, as produced by Go integer formatting. -/
def digitChar : Nat → Char
  | 0 => '0' | 1 => '1' | 2 => '2' | 3 => '3' | 4 => '4'
  | 5 => '5' | 6 => '6' | 7 => '7' | 8 => '8' | 9 => '9'
  | _ => '*'

/-- Digit accumulator for decimal formatting; `fuel` bounds the recursion
(always sufficient at `n + 1`). -/
def decimalAux : Nat → Nat → List Char → List Char
  | 0, _, acc => acc
  | fuel + 1, n, acc =>
    if n < 10 then digitChar n :: acc
    else decimalAux fuel (n / 10) (digitChar (n % 10) :: acc)

/-- Decimal rendering of a natural number, mirroring Go `%d` formatting of
the (non-negative) shard index. -/
def natToDecimal (n : Nat) : String :=
  ⟨decimalAux (n + 1) n []⟩

theorem digitChar_ne_colon (d : Nat) : digitChar d ≠ ':' := by
  rcases d with _ | _ | _ | _ | _ | _ | _ | _ | _ | _ | d
  case succ.succ.succ.succ.succ.succ.succ.succ.succ.succ =>
    have h : digitChar (d + 10) = '*' := rfl
    show digitChar (d + 10) ≠ ':'
    rw [h]; decide
  all_goals decide

theorem decimalAux_chars (fuel n : Nat) (acc : List Char)
    (hacc : ':' ∉ acc) : ':' ∉ decimalAux fuel n acc := by
  induction fuel generalizing n acc with
  | zero => simpa [decimalAux] using hacc
  | succ fuel ih =>
    simp only [decimalAux]
    split
    · intro hmem
      rcases List.mem_cons.1 hmem with h | h
      · exact digitChar_ne_colon n h.symm
      · exact hacc h
    · refine ih (n / 10) _ ?_
      intro hmem
      rcases List.mem_cons.1 hmem with h | h
      · exact digitChar_ne_colon (n % 10) h.symm
      · exact hacc h

/-- Decimal renderings never contain the `:` separator. -/
theorem natToDecimal_no_colon (n : Nat) : ':' ∉ (natToDecimal n).data := by
  simpa [natToDecimal] using decimalAux_chars (n + 1) n [] (by simp)

/-! ### Splitting on `:` (mirrors `strings.Split(id, ":")`) -/

/-- Split a character list at every occurrence of `c`, exactly as
`strings.Split` does for a one-character separator. -/
def splitOnChar (c : Char) : List Char → List (List Char)
  | [] => [[]]
  | x :: xs =>
    if x = c then [] :: splitOnChar c xs
    else
      match splitOnChar c xs with
      | [] => [[x]]
      | y :: ys => (x :: y) :: ys

theorem splitOnChar_ne_nil (c : Char) (l : List Char) :
    splitOnChar c l ≠ [] := by
  cases l with
  | nil => simp [splitOnChar]
  | cons x xs =>
    simp only [splitOnChar]
    split
    · simp
    · split <;> simp

theorem splitOnChar_of_not_mem (c : Char) (l : List Char) (h : c ∉ l) :
    splitOnChar c l = [l] := by
  induction l with
  | nil => rfl
  | cons x xs ih =>
    have hx : ¬x = c := fun hc => h (hc ▸ List.mem_cons_self x xs)
    have hxs : c ∉ xs := fun hc => h (List.mem_cons_of_mem _ hc)
    simp only [splitOnChar, if_neg hx, ih hxs]

theorem splitOnChar_append (c : Char) (l₁ l₂ : List Char) (h : c ∉ l₁) :
    splitOnChar c (l₁ ++ c :: l₂) = l₁ :: splitOnChar c l₂ := by
  induction l₁ with
  | nil => simp [splitOnChar]
  | cons x xs ih =>
    have hx : ¬x = c := fun hc => h (hc ▸ List.mem_cons_self x xs)
    have hxs : c ∉ xs := fun hc => h (List.mem_cons_of_mem _ hc)
    show splitOnChar c (x :: (xs ++ c :: l₂)) = (x :: xs) :: splitOnChar c l₂
    rw [splitOnChar, if_neg hx, ih hxs]

theorem length_splitOnChar (c : Char) (l : List Char) :
    (splitOnChar c l).length = l.count c + 1 := by
  induction l with
  | nil => simp [splitOnChar]
  | cons x xs ih =>
    simp only [splitOnChar]
    split
    · rename_i hx
      simp [List.count_cons, hx, ih]
    · rename_i hx
      rcases hsp : splitOnChar c xs with _ | ⟨y, ys⟩
      · exact absurd hsp (splitOnChar_ne_nil c xs)
      · have := ih
        rw [hsp] at this
        simp only [List.length_cons] at this ⊢
        simp [List.count_cons, hx, this]

theorem string_data_append (s t : String) : (s ++ t).data = s.data ++ t.data :=
  rfl

/-! ### Stats data model (`internal/db/model`) -/

/-- `model.OverallStatsDocument`: the four counters of one logical shard
(the `_id` is carried as the map key).  The same four counters make up
`model.FinalityProviderStatsDocument`. -/
@[ext] structure OverallStatsDocument where
  activeTvl : Int
  totalTvl : Int
  activeDelegations : Int
  totalDelegations : Int
deriving DecidableEq

/-- Per-provider shard documents have exactly the same counter fields; the
`_id` (`pk:shard`) is carried as the map key. -/
abbrev FinalityProviderStatsDocument := OverallStatsDocument

instance : Zero OverallStatsDocument := ⟨⟨0, 0, 0, 0⟩⟩

instance : Add OverallStatsDocument :=
  ⟨fun a b => ⟨a.activeTvl + b.activeTvl, a.totalTvl + b.totalTvl,
    a.activeDelegations + b.activeDelegations,
    a.totalDelegations + b.totalDelegations⟩⟩

@[simp] theorem add_activeTvl (a b : OverallStatsDocument) :
    (a + b).activeTvl = a.activeTvl + b.activeTvl := rfl

@[simp] theorem add_totalTvl (a b : OverallStatsDocument) :
    (a + b).totalTvl = a.totalTvl + b.totalTvl := rfl

@[simp] theorem add_activeDelegations (a b : OverallStatsDocument) :
    (a + b).activeDelegations = a.activeDelegations + b.activeDelegations := rfl

@[simp] theorem add_totalDelegations (a b : OverallStatsDocument) :
    (a + b).totalDelegations = a.totalDelegations + b.totalDelegations := rfl

@[simp] theorem zero_activeTvl : (0 : OverallStatsDocument).activeTvl = 0 := rfl

@[simp] theorem zero_totalTvl : (0 : OverallStatsDocument).totalTvl = 0 := rfl

@[simp] theorem zero_activeDelegations :
    (0 : OverallStatsDocument).activeDelegations = 0 := rfl

@[simp] theorem zero_totalDelegations :
    (0 : OverallStatsDocument).totalDelegations = 0 := rfl

instance : AddCommMonoid OverallStatsDocument where
  add_assoc a b c := by ext <;> simp [Int.add_assoc]
  zero_add a := by ext <;> simp
  add_zero a := by ext <;> simp
  add_comm a b := by ext <;> simp [Int.add_comm]
  nsmul := nsmulRec

/-- The stats-family flag fields of a stats-lock document
(`overall_stats`, `staker_stats`, `finality_provider_stats`). -/
inductive StatsLockField where
  | overallStats
  | stakerStats
  | finalityProviderStats
deriving DecidableEq

/-- `model.StatsLockDocument`: one boolean gate per stats family, keyed by
`stakingTxHashHex:state`. -/
structure StatsLockDocument where
  id : String
  overallStats : Bool
  stakerStats : Bool
  finalityProviderStats : Bool
deriving DecidableEq

/-- `model.NewStatsLockDocument`. -/
def NewStatsLockDocument (id : String) (overall staker fp : Bool) :
    StatsLockDocument :=
  ⟨id, overall, staker, fp⟩

/-- Read one flag of a stats-lock document by field name. -/
def getLockField (d : StatsLockDocument) : StatsLockField → Bool
  | .overallStats => d.overallStats
  | .stakerStats => d.stakerStats
  | .finalityProviderStats => d.finalityProviderStats

/-- Overwrite one flag of a stats-lock document by field name
(the `$set` update of `updateStatsLockByFieldName`). -/
def setLockField (d : StatsLockDocument) : StatsLockField → Bool →
    StatsLockDocument
  | .overallStats, b => { d with overallStats := b }
  | .stakerStats, b => { d with stakerStats := b }
  | .finalityProviderStats, b => { d with finalityProviderStats := b }

/-- The database state touched by the stats slice: the three collections,
each a map from `_id` to document. -/
structure DbState where
  statsLocks : String → Option StatsLockDocument
  overallStats : String → Option OverallStatsDocument
  finalityProviderStats : String → Option FinalityProviderStatsDocument

/-- Closed classification of storage-layer errors, as consumed by
`db.IsNotFoundError` / `db.IsDuplicateKeyError` /
`db.IsInvalidPaginationTokenError` (spec §9: a closed set of tagged
outcomes). -/
inductive DbError where
  | notFound (key : String)
  | duplicateKey
  | invalidPaginationToken
  | otherStorage
deriving DecidableEq

/-- `db.IsNotFoundError`. -/
def IsNotFoundError : DbError → Bool
  | .notFound _ => true
  | _ => false

/-- `db.IsDuplicateKeyError`. -/
def IsDuplicateKeyError : DbError → Bool
  | .duplicateKey => true
  | _ => false

/-- `db.IsInvalidPaginationTokenError`. -/
def IsInvalidPaginationTokenError : DbError → Bool
  | .invalidPaginationToken => true
  | _ => false

/-! ### Machine-integer conversions appearing in the source -/

/-- The Go conversion `int64(amount)` of a `uint64` amount: value-preserving
below `2^63`, two's-complement wrap above. -/
def int64OfUInt64 (n : Nat) : Int :=
  if n < 2 ^ 63 then (n : Int) else (n : Int) - 2 ^ 64

/-- Go `int64` negation (`-int64(amount)`): wraps at the minimum value. -/
def int64Neg (x : Int) : Int :=
  if x = -(2 ^ 63) then x else -x

/-! ### Stats lock registry (`GetOrCreateStatsLock`,
`updateStatsLockByFieldName`) -/

/-- `constructStatsLockId`. -/
def constructStatsLockId (stakingTxHashHex state : String) : String :=
  stakingTxHashHex ++ ":" ++ state

/-- `GetOrCreateStatsLock`: `FindOneAndUpdate` with `$setOnInsert` and
upsert — inserts the all-false default only when the document is absent and
returns the (post-)document; an existing document is returned untouched. -/
def GetOrCreateStatsLock (st : DbState) (stakingTxHashHex txType : String) :
    StatsLockDocument × DbState :=
  let id := constructStatsLockId stakingTxHashHex txType
  match st.statsLocks id with
  | some doc => (doc, st)
  | none =>
    let doc := NewStatsLockDocument id false false false
    (doc, { st with
      statsLocks := fun k => if k = id then some doc else st.statsLocks k })

/-- `updateStatsLockByFieldName`: conditional update with filter
`{_id: hash:state, field: false}` and update `{$set: {field: true}}`;
`MatchedCount == 0` (absent document, or field already `true`) yields the
`NotFoundError` "document already processed or does not exist". -/
def updateStatsLockByFieldName (st : DbState)
    (stakingTxHashHex state : String) (fieldName : StatsLockField) :
    Except DbError DbState :=
  let id := constructStatsLockId stakingTxHashHex state
  match st.statsLocks id with
  | some doc =>
    if getLockField doc fieldName = false then
      .ok { st with statsLocks := fun k =>
        if k = id then some (setLockField doc fieldName true)
        else st.statsLocks k }
    else .error (.notFound stakingTxHashHex)
  | none => .error (.notFound stakingTxHashHex)

/-! ### Overall (global) stats ledger -/

/-- `generateOverallStatsId`: decimal rendering of the randomly drawn shard
index (the random draw itself is the explicit `shard` argument). -/
def generateOverallStatsId (shard : Nat) : String :=
  natToDecimal shard

/-- A Mongo `$inc` upsert on one shard document: an absent document decodes
as all-zero counters, the delta is added field-wise. -/
def applyIncUpsert (m : String → Option OverallStatsDocument) (id : String)
    (delta : OverallStatsDocument) : String → Option OverallStatsDocument :=
  fun k => if k = id then some ((m id).getD 0 + delta) else m k

/-- `updateOverallStats`: one transaction that flips the `overall_stats`
lock field and then `$inc`-upserts the delta on the chosen shard; an error
rolls the whole unit back (no new state escapes). -/
def updateOverallStats (st : DbState) (state stakingTxHashHex : String)
    (delta : OverallStatsDocument) (shard : Nat) : Except DbError DbState :=
  match updateStatsLockByFieldName st stakingTxHashHex state .overallStats with
  | .error e => .error e
  | .ok st1 =>
    .ok { st1 with overallStats :=
      applyIncUpsert st1.overallStats (generateOverallStatsId shard) delta }

/-- The `types.Active.ToString()` lifecycle label. -/
def activeLabel : String := "active"

/-- The `types.Unbonded.ToString()` lifecycle label. -/
def unbondedLabel : String := "unbonded"

/-- `IncrementOverallStats`: `$inc` of
`{active_tvl: int64(amount), total_tvl: int64(amount),
active_delegations: 1, total_delegations: 1}` under the `active` label. -/
def IncrementOverallStats (st : DbState) (stakingTxHashHex : String)
    (amount : Nat) (shard : Nat) : Except DbError DbState :=
  updateOverallStats st activeLabel stakingTxHashHex
    ⟨int64OfUInt64 amount, int64OfUInt64 amount, 1, 1⟩ shard

/-- `SubtractOverallStats`: `$inc` of
`{active_tvl: -int64(amount), active_delegations: -1}` under the `unbonded`
label (the `total_*` fields are absent from the update, i.e. incremented
by zero). -/
def SubtractOverallStats (st : DbState) (stakingTxHashHex : String)
    (amount : Nat) (shard : Nat) : Except DbError DbState :=
  updateOverallStats st unbondedLabel stakingTxHashHex
    ⟨int64Neg (int64OfUInt64 amount), 0, -1, 0⟩ shard

/-- The shard `_id` strings `"0" … "LogicalShardCount-1"` queried by
`GetOverallStats`. -/
def overallShardIds (cfg : Config) : List String :=
  (List.range cfg.logicalShardCount).map natToDecimal

/-- Sum the documents found under a list of distinct ids (a Mongo
`Find {_id: {$in: ids}}` returns each stored matching document once;
absent ids contribute nothing). -/
def sumDocs (m : String → Option OverallStatsDocument) (ids : List String) :
    OverallStatsDocument :=
  (ids.map fun id => (m id).getD 0).sum

/-- `GetOverallStats`: fan-in over all logical shards — find every shard
document and add the four counters up. -/
def GetOverallStats (cfg : Config) (st : DbState) : OverallStatsDocument :=
  sumDocs st.overallStats (overallShardIds cfg).dedup

/-! ### Per-finality-provider stats ledger -/

/-- `generateFinalityProviderStatsId`:
`fmt.Sprintf("%s:%d", pk, shard)` (the random shard draw is the explicit
`shard` argument). -/
def generateFinalityProviderStatsId (finalityProviderPkHex : String)
    (shard : Nat) : String :=
  finalityProviderPkHex ++ ":" ++ natToDecimal shard

/-- `extractFinalityProviderPkHexFromStatsId`: `strings.Split(id, ":")`
must yield exactly two parts; otherwise the id format is invalid
(`none` models the `fmt.Errorf("invalid id format: %s", id)` error). -/
def extractFinalityProviderPkHexFromStatsId (id : String) : Option String :=
  match splitOnChar ':' id.data with
  | [pk, _] => some ⟨pk⟩
  | _ => none

/-- `updateFinalityProviderStats`: one transaction that flips the
`finality_provider_stats` lock field and then `$inc`-upserts the delta on
the chosen shard of the given provider. -/
def updateFinalityProviderStats (st : DbState)
    (state stakingTxHashHex fpPkHex : String) (delta : OverallStatsDocument)
    (shard : Nat) : Except DbError DbState :=
  match updateStatsLockByFieldName st stakingTxHashHex state
      .finalityProviderStats with
  | .error e => .error e
  | .ok st1 =>
    .ok { st1 with finalityProviderStats :=
      (applyIncUpsert st1.finalityProviderStats
        (generateFinalityProviderStatsId fpPkHex shard) delta) }

/-- `IncrementFinalityProviderStats`. -/
def IncrementFinalityProviderStats (st : DbState)
    (stakingTxHashHex fpPkHex : String) (amount : Nat) (shard : Nat) :
    Except DbError DbState :=
  updateFinalityProviderStats st activeLabel stakingTxHashHex fpPkHex
    ⟨int64OfUInt64 amount, int64OfUInt64 amount, 1, 1⟩ shard

/-- `SubtractFinalityProviderStats`. -/
def SubtractFinalityProviderStats (st : DbState)
    (stakingTxHashHex fpPkHex : String) (amount : Nat) (shard : Nat) :
    Except DbError DbState :=
  updateFinalityProviderStats st unbondedLabel stakingTxHashHex fpPkHex
    ⟨int64Neg (int64OfUInt64 amount), 0, -1, 0⟩ shard

/-- `getAllShardedFinalityProviderId`: for every provider pk in the batch,
all `ShardCount` shard ids `pk:0 … pk:(ShardCount-1)`. -/
def getAllShardedFinalityProviderId (cfg : Config) (pks : List String) :
    List String :=
  pks.flatMap fun pk =>
    (List.range cfg.logicalShardCount).map
      (generateFinalityProviderStatsId pk)

/-- Fuel-driven batching loop (`for i := 0; i < len(pkHex); i += batchSize`):
slices of `b + 1` elements.  The fuel is always instantiated to the list
length, which suffices because each step consumes at least one element. -/
def chunksFuel (b : Nat) : Nat → List String → List (List String)
  | _, [] => []
  | 0, pks => [pks]
  | fuel + 1, pk :: pks => (pk :: pks.take b) :: chunksFuel b fuel (pks.drop b)

/-- The successive batches of size `DbBatchSizeLimit` taken by
`FindFinalityProviderStatsByPkHex` (a batch size of `0` would never
advance; the config is positive). -/
def chunks (batchSize : Nat) (pks : List String) : List (List String) :=
  match batchSize with
  | 0 => [pks]
  | b + 1 => chunksFuel b pks.length pks

/-- The documents returned by `Find {_id: {$in: shardIds(batch)}}`, paired
with their `_id`: each stored matching document exactly once. -/
def matchedFpDocs (cfg : Config) (st : DbState) (batch : List String) :
    List (String × FinalityProviderStatsDocument) :=
  ((getAllShardedFinalityProviderId cfg batch).dedup).filterMap fun id =>
    (st.finalityProviderStats id).map fun d => (id, d)

/-- The summation loop over one batch of fetched shard documents: extract
the provider pk from each `_id` (failing the whole call on a malformed id)
and add the four counters into the accumulated per-provider map. -/
def accumulateFpDocs (m : String → Option FinalityProviderStatsDocument) :
    List (String × FinalityProviderStatsDocument) →
    Option (String → Option FinalityProviderStatsDocument)
  | [] => some m
  | (id, d) :: rest =>
    match extractFinalityProviderPkHexFromStatsId id with
    | none => none
    | some pk =>
      let newDoc :=
        match m pk with
        | some existing => existing + d
        | none => d
      accumulateFpDocs
        (fun k => if k = pk then some newDoc else m k) rest

/-- Process the successive batches, threading the accumulated map. -/
def findFpBatches (cfg : Config) (st : DbState)
    (m : String → Option FinalityProviderStatsDocument) :
    List (List String) → Option (String → Option FinalityProviderStatsDocument)
  | [] => some m
  | batch :: rest =>
    match accumulateFpDocs m (matchedFpDocs cfg st batch) with
    | none => none
    | some m1 => findFpBatches cfg st m1 rest

/-- `FindFinalityProviderStatsByPkHex`: batch the pk list by
`DbBatchSizeLimit`, fan out over every shard id of each batch, and sum the
counters per extracted provider pk (`none` models the error return). -/
def FindFinalityProviderStatsByPkHex (cfg : Config) (st : DbState)
    (pkHex : List String) :
    Option (String → Option FinalityProviderStatsDocument) :=
  findFpBatches cfg st (fun _ => none) (chunks cfg.dbBatchSizeLimit pkHex)

/-- The shard ids of a single provider. -/
def fpShardIds (cfg : Config) (pk : String) : List String :=
  (List.range cfg.logicalShardCount).map (generateFinalityProviderStatsId pk)

/-- Whether any shard document of the provider is stored. -/
def fpHasDoc (cfg : Config) (st : DbState) (pk : String) : Bool :=
  (fpShardIds cfg pk).dedup.any fun id =>
    (st.finalityProviderStats id).isSome

/-- The batching-independent specification of the per-provider fan-in: a
requested pk with at least one stored shard document maps to the sum of
the four counters over exactly its shard ids; any other pk is absent. -/
def canonicalFpMap (cfg : Config) (st : DbState) (pks : List String) :
    String → Option FinalityProviderStatsDocument :=
  fun pk =>
    if pk ∈ pks ∧ fpHasDoc cfg st pk then
      some (sumDocs st.finalityProviderStats (fpShardIds cfg pk).dedup)
    else none

/-! ### Delegation data model (`internal/v1/db/model`, `internal/v1/service`) -/

/-- `types.DelegationState` (v1 lifecycle states). -/
inductive DelegationState where
  | active
  | unbondingRequested
  | unbonding
  | unbonded
  | withdrawn
deriving DecidableEq

/-- `types.DelegationState.ToString()`. -/
def DelegationState.label : DelegationState → String
  | .active => "active"
  | .unbondingRequested => "unbonding_requested"
  | .unbonding => "unbonding"
  | .unbonded => "unbonded"
  | .withdrawn => "withdrawn"

/-- `v1model.TimelockTransaction`. -/
structure TimelockTransaction where
  txHex : String
  outputIndex : Nat
  startTimestamp : Int
  startHeight : Nat
  timeLock : Nat
deriving DecidableEq

/-- `v1model.DelegationDocument`. -/
structure DelegationDocument where
  stakingTxHashHex : String
  stakerPkHex : String
  finalityProviderPkHex : String
  stakingValue : Nat
  state : DelegationState
  stakingTx : TimelockTransaction
  unbondingTx : Option TimelockTransaction
  isOverflow : Bool
deriving DecidableEq

/-- `v1service.TransactionPublic`. -/
structure TransactionPublic where
  txHex : String
  outputIndex : Nat
  startTimestamp : String
  startHeight : Nat
  timeLock : Nat
deriving DecidableEq

/-- `v1service.DelegationPublic`. -/
structure DelegationPublic where
  stakingTxHashHex : String
  stakerPkHex : String
  finalityProviderPkHex : String
  state : String
  stakingValue : Nat
  stakingTx : TransactionPublic
  unbondingTx : Option TransactionPublic
  isOverflow : Bool
deriving DecidableEq

/-- `v1service.FromDelegationDocument`; the timestamp formatter
`utils.ParseTimestampToIsoFormat` is outside the verified slice and is
passed as `parseTs`. -/
def FromDelegationDocument (parseTs : Int → String)
    (d : DelegationDocument) : DelegationPublic :=
  let pub : DelegationPublic :=
    { stakingTxHashHex := d.stakingTxHashHex
      stakerPkHex := d.stakerPkHex
      finalityProviderPkHex := d.finalityProviderPkHex
      state := d.state.label
      stakingValue := d.stakingValue
      stakingTx :=
        { txHex := d.stakingTx.txHex
          outputIndex := d.stakingTx.outputIndex
          startTimestamp := parseTs d.stakingTx.startTimestamp
          startHeight := d.stakingTx.startHeight
          timeLock := d.stakingTx.timeLock }
      unbondingTx := none
      isOverflow := d.isOverflow }
  match d.unbondingTx with
  | some u =>
    if u.txHex ≠ "" then
      { pub with unbondingTx :=
        (some { txHex := u.txHex
                outputIndex := u.outputIndex
                startTimestamp := parseTs u.startTimestamp
                startHeight := u.startHeight
                timeLock := u.timeLock }) }
    else pub
  | none => pub

/-- The error-code labels of `internal/shared/types` used by this slice. -/
inductive ErrorCodeLabel where
  | internalServiceError
  | notFound
  | badRequest
deriving DecidableEq

/-- `types.Error`: an HTTP status code plus an error-code label. -/
structure ApiError where
  statusCode : Nat
  errorCode : ErrorCodeLabel
deriving DecidableEq

/-- `types.NewError` / `types.NewErrorWithMsg` (the wrapped message is not
modelled). -/
def NewApiError (statusCode : Nat) (errorCode : ErrorCodeLabel) : ApiError :=
  ⟨statusCode, errorCode⟩

/-- `types.NewInternalServiceError`: HTTP 500 with the
internal-service-error code. -/
def NewInternalServiceError : ApiError :=
  ⟨500, .internalServiceError⟩

/-- `V1Service.GetDelegation`, as a function of the store's report for the
tx hash (`FindDelegationByTxHashHex` outcome): not-found maps to HTTP 404,
any other storage failure to an internal service error. -/
def GetDelegation (dbResult : Except DbError DelegationDocument) :
    Except ApiError DelegationDocument :=
  match dbResult with
  | .error e =>
    if IsNotFoundError e then .error (NewApiError 404 .notFound)
    else .error NewInternalServiceError
  | .ok d => .ok d

/-- `V1Handler.GetDelegationByTxHash`: parse the query hash
(`handler.ParseTxHashQuery` outcome passed in), call the service, and wrap
the found document; every error is propagated unchanged. -/
def GetDelegationByTxHash (parseTs : Int → String)
    (parseResult : Except ApiError String)
    (dbResult : Except DbError DelegationDocument) :
    Except ApiError DelegationPublic :=
  match parseResult with
  | .error e => .error e
  | .ok _ =>
    match GetDelegation dbResult with
    | .error e => .error e
    | .ok d => .ok (FromDelegationDocument parseTs d)

/-- `V1Service.DelegationsByStakerPk`, as a function of the store's report
(`FindDelegationsByStakerPk` outcome: a page of documents plus the
continuation token, or a tagged error): an invalid pagination token maps to
HTTP 400 BadRequest, any other storage failure to an internal service
error; on success each document is mapped to its public shape.  Errors
return `nil` data and an empty token, as the Go function does. -/
def DelegationsByStakerPk (parseTs : Int → String)
    (dbResult : Except DbError (List DelegationDocument × String)) :
    (List DelegationPublic × String) × Option ApiError :=
  match dbResult with
  | .error e =>
    if IsInvalidPaginationTokenError e then
      (([], ""), some (NewApiError 400 .badRequest))
    else (([], ""), some NewInternalServiceError)
  | .ok (docs, token) =>
    ((docs.map (FromDelegationDocument parseTs), token), none)

/-- Modelled from the spec: the v1 delegation store's `createActive`
(`V1DBClient.SaveActiveStakingDelegation`, not part of the verified
slice).  Spec §4.1: "inserts a new document if absent; if a document with
that hash already exists, returns a duplicate signal (not a failure)" —
the stored document is left untouched on a duplicate. -/
def dbSaveActiveStakingDelegation
    (store : String → Option DelegationDocument) (doc : DelegationDocument) :
    (String → Option DelegationDocument) × Except DbError Unit :=
  match store doc.stakingTxHashHex with
  | some _ => (store, .error .duplicateKey)
  | none =>
    (fun k => if k = doc.stakingTxHashHex then some doc else store k, .ok ())

/-- The error mapping of `V1Service.SaveActiveStakingDelegation`: a
duplicate-key report is swallowed (`nil`), any other failure becomes an
internal service error. -/
def classifySaveResult (r : Except DbError Unit) : Option ApiError :=
  match r with
  | .ok _ => none
  | .error e =>
    if IsDuplicateKeyError e then none
    else some NewInternalServiceError

/-- `V1Service.SaveActiveStakingDelegation`: run the store insert and map
its outcome. -/
def SaveActiveStakingDelegation
    (store : String → Option DelegationDocument) (doc : DelegationDocument) :
    (String → Option DelegationDocument) × Option ApiError :=
  let (store1, r) := dbSaveActiveStakingDelegation store doc
  (store1, classifySaveResult r)

/-- Outcomes surfaced to the queue transport (spec §6): ack, retry
(redelivery), fatal. -/
inductive EventOutcome where
  | ack
  | retry
  | fatal
deriving DecidableEq

/-- Modelled from the spec: the event processor's classification of a
stats-update result (the caller of `updateOverallStats` /
`updateFinalityProviderStats` is not part of the verified slice).
Spec §4.3/§7: the not-found signal of the lock flip means "already
processed" and resolves to a silent success (ack), never a surfaced
failure; transient storage failures are retried. -/
def classifyStatsUpdateResult : Except DbError DbState → EventOutcome
  | .ok _ => .ack
  | .error (.notFound _) => .ack
  | .error _ => .retry

/-- Modelled from the spec: the Withdraw-event branch of the event
processor (`processWithdrawStakingEvent`, not part of the verified slice;
its observable behaviour is pinned by the integration tests in `src`).
Spec §4.2 transition table, Withdraw row: required state `Unbonded` →
`Withdrawn`; while the document is still `Active` or `UnbondingRequested`
(expiry not yet processed) the event is out-of-order — no mutation,
request redelivery; if already `Withdrawn`, duplicate — no mutation,
ack. -/
def processWithdrawStakingEvent (doc : DelegationDocument) :
    DelegationDocument × EventOutcome :=
  match doc.state with
  | .active => (doc, .retry)
  | .unbondingRequested => (doc, .retry)
  | .unbonding => (doc, .retry)
  | .unbonded => ({ doc with state := .withdrawn }, .ack)
  | .withdrawn => (doc, .ack)

/-! ### Sequences of overall-stats adjustments -/

/-- One overall-stats adjustment together with its nondeterministic shard
draw. -/
inductive StatsOp where
  | inc (stakingTxHashHex : String) (amount : Nat) (shard : Nat)
  | sub (stakingTxHashHex : String) (amount : Nat) (shard : Nat)

/-- The shard drawn for the adjustment. -/
def StatsOp.shard : StatsOp → Nat
  | .inc _ _ s => s
  | .sub _ _ s => s

/-- The shard delta the adjustment applies when it succeeds. -/
def StatsOp.delta : StatsOp → OverallStatsDocument
  | .inc _ a _ => ⟨int64OfUInt64 a, int64OfUInt64 a, 1, 1⟩
  | .sub _ a _ => ⟨int64Neg (int64OfUInt64 a), 0, -1, 0⟩

/-- Run one adjustment. -/
def runStatsOp (st : DbState) : StatsOp → Except DbError DbState
  | .inc h a s => IncrementOverallStats st h a s
  | .sub h a s => SubtractOverallStats st h a s

/-- Run a sequence of adjustments; `none` as soon as one fails. -/
def runStatsOps (st : DbState) : List StatsOp → Option DbState
  | [] => some st
  | op :: rest =>
    match runStatsOp st op with
    | .ok st1 => runStatsOps st1 rest
    | .error _ => none

/-! ### Concrete fixtures used by witnesses and counterexamples -/

/-- A lock registry holding fresh (all-false) lock documents for the tx
hashes `"h"` and `"g"`. -/
def testLocks : String → Option StatsLockDocument := fun k =>
  if k = "h:active" then
    some (NewStatsLockDocument "h:active" false false false)
  else if k = "h:unbonded" then
    some (NewStatsLockDocument "h:unbonded" false false false)
  else if k = "g:active" then
    some (NewStatsLockDocument "g:active" false false false)
  else none

/-- Two logical shards, batch size one. -/
def testConfig : Config := ⟨2, 1⟩

/-- The decoded counters stored under one shard id (an absent document
decodes as all-zero). -/
def readShard (m : String → Option OverallStatsDocument) (id : String) :
    OverallStatsDocument :=
  (m id).getD 0

/-- A lock registry whose `"h:active"` and `"h:unbonded"` documents have
every family flag already `true`. -/
def lockedLocks : String → Option StatsLockDocument := fun k =>
  if k = "h:active" then
    some (NewStatsLockDocument "h:active" true true true)
  else if k = "h:unbonded" then
    some (NewStatsLockDocument "h:unbonded" true true true)
  else none

/-- Database whose `"h"` locks are all already flipped. -/
def lockedState : DbState := ⟨lockedLocks, fun _ => none, fun _ => none⟩

/-- Fresh database: the `testLocks` registry, no shard documents. -/
def testState : DbState := ⟨testLocks, fun _ => none, fun _ => none⟩

/-- Database holding one provider shard document `"a:0"`. -/
def testFpState : DbState :=
  ⟨testLocks, fun _ => none,
    fun k => if k = "a:0" then some ⟨1, 2, 3, 4⟩ else none⟩

/-- One logical shard, batch size one. -/
def batchOneConfig : Config := ⟨1, 1⟩

/-- One logical shard, batch size two. -/
def batchTwoConfig : Config := ⟨1, 2⟩

/-- A delegation document in a given state. -/
def testDelegation (s : DelegationState) : DelegationDocument :=
  { stakingTxHashHex := "h"
    stakerPkHex := "staker"
    finalityProviderPkHex := "fp"
    stakingValue := 100
    state := s
    stakingTx := ⟨"tx", 0, 0, 1, 60⟩
    unbondingTx := none
    isOverflow := false }

/-- A delegation store already holding the hash `"h"`. -/
def testDelegationStore : String → Option DelegationDocument := fun k =>
  if k = "h" then some (testDelegation .active) else none

/-! ## Lemmas about shard sums -/

theorem sumDocs_nil (m : String → Option OverallStatsDocument) :
    sumDocs m [] = 0 := rfl

theorem sumDocs_cons (m : String → Option OverallStatsDocument)
    (a : String) (as : List String) :
    sumDocs m (a :: as) = (m a).getD 0 + sumDocs m as := by
  simp [sumDocs]

theorem sumDocs_congr {m₁ m₂ : String → Option OverallStatsDocument} :
    ∀ {ids : List String}, (∀ id ∈ ids, m₁ id = m₂ id) →
    sumDocs m₁ ids = sumDocs m₂ ids := by
  intro ids
  induction ids with
  | nil => intro _; rfl
  | cons a as ih =>
    intro h
    rw [sumDocs_cons, sumDocs_cons, h a (List.mem_cons_self a as),
      ih fun id hid => h id (List.mem_cons_of_mem _ hid)]

theorem sumDocs_none (ids : List String) :
    sumDocs (fun _ => none) ids = 0 := by
  induction ids with
  | nil => rfl
  | cons a as ih => rw [sumDocs_cons, ih]; simp

theorem applyIncUpsert_self (m : String → Option OverallStatsDocument)
    (id : String) (δ : OverallStatsDocument) :
    applyIncUpsert m id δ id = some ((m id).getD 0 + δ) := by
  simp [applyIncUpsert]

theorem applyIncUpsert_ne (m : String → Option OverallStatsDocument)
    (id : String) (δ : OverallStatsDocument) {k : String} (h : k ≠ id) :
    applyIncUpsert m id δ k = m k := by
  simp [applyIncUpsert, h]

theorem sumDocs_applyIncUpsert
    {m : String → Option OverallStatsDocument} {k : String}
    (δ : OverallStatsDocument) :
    ∀ {ids : List String}, ids.Nodup → k ∈ ids →
    sumDocs (applyIncUpsert m k δ) ids = sumDocs m ids + δ := by
  intro ids
  induction ids with
  | nil => intro _ hk; cases hk
  | cons a as ih =>
    intro hnd hk
    have ha : a ∉ as := (List.nodup_cons.1 hnd).1
    rcases List.mem_cons.1 hk with rfl | hk'
    · rw [sumDocs_cons, sumDocs_cons, applyIncUpsert_self,
        sumDocs_congr fun id hid =>
          applyIncUpsert_ne m k δ (fun hik => ha (hik ▸ hid))]
      simp only [Option.getD_some]
      rw [add_right_comm]
    · have hak : a ≠ k := fun h => ha (h ▸ hk')
      rw [sumDocs_cons, sumDocs_cons, applyIncUpsert_ne m k δ hak,
        ih (List.nodup_cons.1 hnd).2 hk', add_assoc]

/-! ## Lemmas about the lock registry and the transactional updates -/

theorem updateStatsLock_ok {st st1 : DbState} {h s : String}
    {f : StatsLockField}
    (hok : updateStatsLockByFieldName st h s f = .ok st1) :
    ∃ doc, st.statsLocks (constructStatsLockId h s) = some doc ∧
      getLockField doc f = false ∧
      st1 = { st with statsLocks := fun k =>
        if k = constructStatsLockId h s then some (setLockField doc f true)
        else st.statsLocks k } := by
  simp only [updateStatsLockByFieldName] at hok
  split at hok
  · rename_i doc hdoc
    split at hok
    · rename_i hf
      exact ⟨doc, hdoc, hf, (Except.ok.inj hok).symm⟩
    · cases hok
  · cases hok

theorem updateOverallStats_ok {st st' : DbState} {lbl hash : String}
    {δ : OverallStatsDocument} {shard : Nat}
    (hok : updateOverallStats st lbl hash δ shard = .ok st') :
    ∃ st1, updateStatsLockByFieldName st hash lbl .overallStats = .ok st1 ∧
      st' = { st1 with overallStats :=
        (applyIncUpsert st1.overallStats (generateOverallStatsId shard) δ) } := by
  unfold updateOverallStats at hok
  split at hok
  · cases hok
  · rename_i st1 h1
    exact ⟨st1, h1, (Except.ok.inj hok).symm⟩

theorem updateFinalityProviderStats_ok {st st' : DbState}
    {lbl hash fpPk : String} {δ : OverallStatsDocument} {shard : Nat}
    (hok : updateFinalityProviderStats st lbl hash fpPk δ shard = .ok st') :
    ∃ st1,
      updateStatsLockByFieldName st hash lbl .finalityProviderStats =
        .ok st1 ∧
      st' = { st1 with finalityProviderStats :=
        (applyIncUpsert st1.finalityProviderStats
          (generateFinalityProviderStatsId fpPk shard) δ) } := by
  unfold updateFinalityProviderStats at hok
  split at hok
  · cases hok
  · rename_i st1 h1
    exact ⟨st1, h1, (Except.ok.inj hok).symm⟩

theorem generateOverallStatsId_mem {cfg : Config} {s : Nat}
    (h : s < cfg.logicalShardCount) :
    generateOverallStatsId s ∈ (overallShardIds cfg).dedup := by
  rw [List.mem_dedup]
  exact List.mem_map.2 ⟨s, List.mem_range.2 h, rfl⟩

theorem GetOverallStats_update {cfg : Config} {st st' : DbState}
    {lbl hash : String} {δ : OverallStatsDocument} {shard : Nat}
    (hs : shard < cfg.logicalShardCount)
    (hok : updateOverallStats st lbl hash δ shard = .ok st') :
    GetOverallStats cfg st' = GetOverallStats cfg st + δ := by
  obtain ⟨st1, h1, rfl⟩ := updateOverallStats_ok hok
  obtain ⟨doc, _, _, rfl⟩ := updateStatsLock_ok h1
  unfold GetOverallStats
  exact sumDocs_applyIncUpsert δ (List.nodup_dedup _)
    (generateOverallStatsId_mem hs)

theorem GetOverallStats_runStatsOp {cfg : Config} {st st' : DbState}
    {op : StatsOp} (hs : op.shard < cfg.logicalShardCount)
    (hok : runStatsOp st op = .ok st') :
    GetOverallStats cfg st' = GetOverallStats cfg st + op.delta := by
  cases op <;> exact GetOverallStats_update hs hok

theorem GetOverallStats_runStatsOps {cfg : Config} :
    ∀ {ops : List StatsOp} {st st' : DbState},
    (∀ op ∈ ops, op.shard < cfg.logicalShardCount) →
    runStatsOps st ops = some st' →
    GetOverallStats cfg st' =
      GetOverallStats cfg st + (ops.map StatsOp.delta).sum := by
  intro ops
  induction ops with
  | nil =>
    intro st st' _ hrun
    cases Option.some.inj hrun
    simp
  | cons op rest ih =>
    intro st st' hsh hrun
    unfold runStatsOps at hrun
    split at hrun
    · rename_i st1 h1
      rw [ih (fun o ho => hsh o (List.mem_cons_of_mem _ ho)) hrun,
        GetOverallStats_runStatsOp (hsh op (List.mem_cons_self op rest)) h1]
      simp [add_assoc]
    · cases hrun

theorem sum_map_delta_const {δ : OverallStatsDocument} :
    ∀ {ops : List StatsOp}, (∀ op ∈ ops, StatsOp.delta op = δ) →
    (ops.map StatsOp.delta).sum =
      ⟨(ops.length : Int) * δ.activeTvl, (ops.length : Int) * δ.totalTvl,
        (ops.length : Int) * δ.activeDelegations,
        (ops.length : Int) * δ.totalDelegations⟩ := by
  intro ops
  induction ops with
  | nil => intro _; ext <;> simp
  | cons op rest ih =>
    intro h
    rw [List.map_cons, List.sum_cons, h op (List.mem_cons_self op rest),
      ih fun o ho => h o (List.mem_cons_of_mem _ ho)]
    ext <;> · simp only [add_activeTvl, add_totalTvl, add_activeDelegations,
        add_totalDelegations, List.length_cons]
              push_cast
              ring

/-! ## C1 — global aggregate after N increments and M decrements -/

/-- C1 (amended: for amounts below `2^63`, i.e. representable in `int64`).
After `N` successful `IncrementOverallStats` calls of amount `v` followed
by `M ≤ N` successful `SubtractOverallStats` calls of amount `v`, starting
from an empty overall-stats collection, the summed `GetOverallStats`
equals `activeTvl = (N-M)·v`, `totalTvl = N·v`,
`activeDelegations = N-M`, `totalDelegations = N`, regardless of which
in-range shard each call randomly landed on. -/
theorem overallStats_aggregate (cfg : Config) (v : Nat)
    (incs subs : List StatsOp) (st0 st1 : DbState)
    (hv : v < 2 ^ 63)
    (hMN : subs.length ≤ incs.length)
    (hincs : ∀ op ∈ incs, ∃ h s,
      op = .inc h v s ∧ s < cfg.logicalShardCount)
    (hsubs : ∀ op ∈ subs, ∃ h s,
      op = .sub h v s ∧ s < cfg.logicalShardCount)
    (hempty : st0.overallStats = fun _ => none)
    (hrun : runStatsOps st0 (incs ++ subs) = some st1) :
    GetOverallStats cfg st1 =
      ⟨((incs.length : Int) - subs.length) * v, (incs.length : Int) * v,
        (incs.length : Int) - subs.length, (incs.length : Int)⟩ := by
  have hsh : ∀ op ∈ incs ++ subs, op.shard < cfg.logicalShardCount := by
    intro op hop
    rcases List.mem_append.1 hop with hm | hm
    · obtain ⟨hh, s, rfl, hs⟩ := hincs op hm
      exact hs
    · obtain ⟨hh, s, rfl, hs⟩ := hsubs op hm
      exact hs
  have h0 : GetOverallStats cfg st0 = 0 := by
    unfold GetOverallStats
    rw [hempty, sumDocs_none]
  have h64 : int64OfUInt64 v = (v : Int) := by
    unfold int64OfUInt64
    rw [if_pos hv]
  have hinc : ∀ op ∈ incs,
      StatsOp.delta op = ⟨(v : Int), (v : Int), 1, 1⟩ := by
    intro op hop
    obtain ⟨hh, s, rfl, _⟩ := hincs op hop
    simp [StatsOp.delta, h64]
  have hsub : ∀ op ∈ subs,
      StatsOp.delta op = ⟨-(v : Int), 0, -1, 0⟩ := by
    intro op hop
    obtain ⟨hh, s, rfl, _⟩ := hsubs op hop
    have hne : (v : Int) ≠ -(2 ^ 63) := by
      have := Int.natCast_nonneg v
      omega
    simp [StatsOp.delta, int64Neg, h64, hne]
  rw [GetOverallStats_runStatsOps hsh hrun, h0, zero_add, List.map_append,
    List.sum_append, sum_map_delta_const hinc, sum_map_delta_const hsub]
  ext <;> · simp only [add_activeTvl, add_totalTvl, add_activeDelegations,
              add_totalDelegations]
            ring

/-- C1 witness: two increments of amount 5 (hashes `"h"`, `"g"`, shards 0
and 1) followed by one decrement (hash `"h"`, shard 1) on a fresh
database, with two logical shards: the aggregate is
`(5, 10, 1, 2)`. -/
theorem overallStats_aggregate_witness :
    (runStatsOps testState
        ([StatsOp.inc "h" 5 0, StatsOp.inc "g" 5 1] ++
          [StatsOp.sub "h" 5 1])).map (GetOverallStats testConfig) =
      some ⟨5, 10, 1, 2⟩ := by
  have hsome : (runStatsOps testState
      ([StatsOp.inc "h" 5 0, StatsOp.inc "g" 5 1] ++
        [StatsOp.sub "h" 5 1])).isSome = true := by decide
  rcases hrun : runStatsOps testState
      ([StatsOp.inc "h" 5 0, StatsOp.inc "g" 5 1] ++
        [StatsOp.sub "h" 5 1]) with _ | st1
  · rw [hrun] at hsome
    cases hsome
  · have hmain := overallStats_aggregate testConfig 5
      [StatsOp.inc "h" 5 0, StatsOp.inc "g" 5 1] [StatsOp.sub "h" 5 1]
      testState st1 (by decide) (by decide)
      (by
        intro op hop
        rcases List.mem_cons.1 hop with rfl | hop
        · exact ⟨"h", 0, rfl, by decide⟩
        rcases List.mem_cons.1 hop with rfl | hop
        · exact ⟨"g", 1, rfl, by decide⟩
        cases hop)
      (by
        intro op hop
        rcases List.mem_cons.1 hop with rfl | hop
        · exact ⟨"h", 1, rfl, by decide⟩
        cases hop)
      rfl hrun
    show some (GetOverallStats testConfig st1) = _
    rw [hmain]
    decide

/-- C1 counterexample to the unrestricted claim: at `v = 2^63` the source
conversion `int64(amount)` wraps, so a single successful increment yields
an aggregate of `(-2^63, -2^63, 1, 1)` instead of the claimed
`(2^63, 2^63, 1, 1)` (here `N = 1`, `M = 0`). -/
theorem overallStats_aggregate_counterexample :
    (runStatsOps testState [StatsOp.inc "h" (2 ^ 63) 0]).map
        (GetOverallStats testConfig) =
      some ⟨-(2 ^ 63 : Int), -(2 ^ 63 : Int), 1, 1⟩ ∧
    (⟨-(2 ^ 63 : Int), -(2 ^ 63 : Int), 1, 1⟩ : OverallStatsDocument) ≠
      ⟨(((1 : Nat) : Int) - ((0 : Nat) : Int)) * ((2 ^ 63 : Nat) : Int),
        ((1 : Nat) : Int) * ((2 ^ 63 : Nat) : Int),
        ((1 : Nat) : Int) - ((0 : Nat) : Int), ((1 : Nat) : Int)⟩ := by
  constructor
  · decide
  · decide

/-! ## C7 — frame property of a single SubtractOverallStats call -/

/-- C7 (amended: for amounts below `2^63`): a successful
`SubtractOverallStats` call changes only the `active_tvl` (by `-amount`)
and `active_delegations` (by `-1`) counters of the drawn shard; the
`total_tvl` and `total_delegations` counters of that shard, every counter
of every other shard id, and the whole per-provider collection are
unchanged. -/
theorem subtractOverallStats_frame (st st' : DbState) (hash : String)
    (amount shard : Nat) (ha : amount < 2 ^ 63)
    (hok : SubtractOverallStats st hash amount shard = .ok st') :
    (readShard st'.overallStats (generateOverallStatsId shard)).activeTvl =
      (readShard st.overallStats (generateOverallStatsId shard)).activeTvl
        - amount ∧
    (readShard st'.overallStats
        (generateOverallStatsId shard)).activeDelegations =
      (readShard st.overallStats
        (generateOverallStatsId shard)).activeDelegations - 1 ∧
    (readShard st'.overallStats (generateOverallStatsId shard)).totalTvl =
      (readShard st.overallStats (generateOverallStatsId shard)).totalTvl ∧
    (readShard st'.overallStats
        (generateOverallStatsId shard)).totalDelegations =
      (readShard st.overallStats
        (generateOverallStatsId shard)).totalDelegations ∧
    (∀ k, k ≠ generateOverallStatsId shard →
      st'.overallStats k = st.overallStats k) ∧
    st'.finalityProviderStats = st.finalityProviderStats := by
  obtain ⟨st1, h1, rfl⟩ := updateOverallStats_ok hok
  obtain ⟨doc, _, _, rfl⟩ := updateStatsLock_ok h1
  have h64 : int64OfUInt64 amount = (amount : Int) := by
    unfold int64OfUInt64
    rw [if_pos ha]
  have hne : (amount : Int) ≠ -(2 ^ 63) := by
    have := Int.natCast_nonneg amount
    omega
  have hneg : int64Neg (int64OfUInt64 amount) = -(amount : Int) := by
    unfold int64Neg
    rw [h64, if_neg hne]
  refine ⟨?_, ?_, ?_, ?_, ?_, rfl⟩ <;>
    first
      | (intro k hk
         exact applyIncUpsert_ne _ _ _ hk)
      | (simp [readShard, applyIncUpsert_self, hneg]
         try ring)

/-- C7 witness: subtracting amount 7 with shard draw 1 on a fresh database
(lock `"h:unbonded"` present and unflipped). -/
theorem subtractOverallStats_frame_witness :
    (SubtractOverallStats testState "h" 7 1).map
        (fun st => readShard st.overallStats (generateOverallStatsId 1)) =
      .ok ⟨-7, 0, -1, 0⟩ ∧
    (SubtractOverallStats testState "h" 7 1).map
        (fun st => readShard st.overallStats (generateOverallStatsId 0)) =
      .ok 0 := by
  have hisok : (SubtractOverallStats testState "h" 7 1).isOk = true := by
    decide
  have hsome : ∃ st', SubtractOverallStats testState "h" 7 1 = .ok st' := by
    rcases h : SubtractOverallStats testState "h" 7 1 with e | st'
    · rw [h] at hisok
      cases hisok
    · exact ⟨st', rfl⟩
  obtain ⟨st', hok⟩ := hsome
  have hframe := subtractOverallStats_frame testState st' "h" 7 1
    (by decide) hok
  obtain ⟨h1, h2, h3, h4, hother, _⟩ := hframe
  rw [hok]
  constructor
  · show Except.ok (readShard st'.overallStats (generateOverallStatsId 1)) = _
    have : readShard st'.overallStats (generateOverallStatsId 1) =
        ⟨-7, 0, -1, 0⟩ := by
      ext
      · rw [h1]; decide
      · rw [h3]; decide
      · rw [h2]; decide
      · rw [h4]; decide
    rw [this]
  · show Except.ok (readShard st'.overallStats (generateOverallStatsId 0)) = _
    have hne01 : generateOverallStatsId 0 ≠ generateOverallStatsId 1 := by
      decide
    rw [show readShard st'.overallStats (generateOverallStatsId 0) =
        readShard testState.overallStats (generateOverallStatsId 0) from by
      unfold readShard
      rw [hother _ hne01]]
    rfl

/-- C7 counterexample to the unrestricted claim: at `amount = 2^63 + 1`
the source expression `-int64(amount)` wraps to `+(2^63 - 1)`, so the
drawn shard's `active_tvl` moves by `2^63 - 1`, not by `-amount`. -/
theorem subtractOverallStats_frame_counterexample :
    (SubtractOverallStats testState "h" (2 ^ 63 + 1) 0).map
        (fun st => (readShard st.overallStats
          (generateOverallStatsId 0)).activeTvl) =
      .ok (2 ^ 63 - 1 : Int) ∧
    (2 ^ 63 - 1 : Int) ≠ 0 - ((2 ^ 63 + 1 : Nat) : Int) := by
  constructor
  · rfl
  · decide

/-! ## C2 — atomicity and idempotence of the lock-flip + delta unit -/

theorem getLockField_setLockField (d : StatsLockDocument)
    (f f' : StatsLockField) (b : Bool) :
    getLockField (setLockField d f b) f' =
      if f' = f then b else getLockField d f' := by
  cases f <;> cases f' <;> simp [getLockField, setLockField]

theorem updateStatsLock_already_true {st : DbState} {h s : String}
    {f : StatsLockField} {doc : StatsLockDocument}
    (hdoc : st.statsLocks (constructStatsLockId h s) = some doc)
    (htrue : getLockField doc f = true) :
    updateStatsLockByFieldName st h s f = .error (.notFound h) := by
  simp only [updateStatsLockByFieldName]
  rw [hdoc]
  simp [htrue]

/-- C2: each composite stats operation is one atomic unit.  If the lock
field for the (tx hash, state) pair is already `true`, the unit aborts
with the not-found signal and no successor state (so no shard counter can
change), and this outcome is classified as an idempotent ack, not a
failure.  If the field is `false`, the unit commits exactly the lock flip
together with the single-shard delta; any committed state has both or
neither (there is no state with one and not the other). -/
theorem statsUpdate_atomic_idempotent (st : DbState)
    (hash lbl fpPk : String) (δ : OverallStatsDocument) (shard : Nat) :
    (∀ doc, st.statsLocks (constructStatsLockId hash lbl) = some doc →
      getLockField doc .overallStats = true →
      updateOverallStats st lbl hash δ shard = .error (.notFound hash) ∧
      classifyStatsUpdateResult
        (updateOverallStats st lbl hash δ shard) = .ack) ∧
    (∀ doc, st.statsLocks (constructStatsLockId hash lbl) = some doc →
      getLockField doc .overallStats = false →
      updateOverallStats st lbl hash δ shard = .ok
        { st with
          statsLocks := fun k =>
            if k = constructStatsLockId hash lbl then
              some (setLockField doc .overallStats true)
            else st.statsLocks k
          overallStats :=
            (applyIncUpsert st.overallStats
              (generateOverallStatsId shard) δ) }) ∧
    (∀ st', updateOverallStats st lbl hash δ shard = .ok st' →
      ∃ doc, st.statsLocks (constructStatsLockId hash lbl) = some doc ∧
        getLockField doc .overallStats = false ∧
        st' = { st with
          statsLocks := fun k =>
            if k = constructStatsLockId hash lbl then
              some (setLockField doc .overallStats true)
            else st.statsLocks k
          overallStats :=
            (applyIncUpsert st.overallStats
              (generateOverallStatsId shard) δ) }) ∧
    (∀ doc, st.statsLocks (constructStatsLockId hash lbl) = some doc →
      getLockField doc .finalityProviderStats = true →
      updateFinalityProviderStats st lbl hash fpPk δ shard =
        .error (.notFound hash) ∧
      classifyStatsUpdateResult
        (updateFinalityProviderStats st lbl hash fpPk δ shard) = .ack) ∧
    (∀ st', updateFinalityProviderStats st lbl hash fpPk δ shard = .ok st' →
      ∃ doc, st.statsLocks (constructStatsLockId hash lbl) = some doc ∧
        getLockField doc .finalityProviderStats = false ∧
        st' = { st with
          statsLocks := fun k =>
            if k = constructStatsLockId hash lbl then
              some (setLockField doc .finalityProviderStats true)
            else st.statsLocks k
          finalityProviderStats :=
            (applyIncUpsert st.finalityProviderStats
              (generateFinalityProviderStatsId fpPk shard) δ) }) := by
  refine ⟨?_, ?_, ?_, ?_, ?_⟩
  · intro doc hdoc htrue
    have herr := updateStatsLock_already_true hdoc htrue
    constructor
    · unfold updateOverallStats
      rw [herr]
    · unfold updateOverallStats
      rw [herr]
      rfl
  · intro doc hdoc hfalse
    have hlock : updateStatsLockByFieldName st hash lbl .overallStats =
        .ok { st with statsLocks :=
          (fun k => if k = constructStatsLockId hash lbl then
            some (setLockField doc .overallStats true)
          else st.statsLocks k) } := by
      simp only [updateStatsLockByFieldName]
      rw [hdoc]
      simp [hfalse]
    unfold updateOverallStats
    rw [hlock]
  · intro st' hok
    obtain ⟨st1, h1, rfl⟩ := updateOverallStats_ok hok
    obtain ⟨doc, hdoc, hfalse, rfl⟩ := updateStatsLock_ok h1
    exact ⟨doc, hdoc, hfalse, rfl⟩
  · intro doc hdoc htrue
    have herr := updateStatsLock_already_true hdoc htrue
    constructor
    · unfold updateFinalityProviderStats
      rw [herr]
    · unfold updateFinalityProviderStats
      rw [herr]
      rfl
  · intro st' hok
    obtain ⟨st1, h1, rfl⟩ := updateFinalityProviderStats_ok hok
    obtain ⟨doc, hdoc, hfalse, rfl⟩ := updateStatsLock_ok h1
    exact ⟨doc, hdoc, hfalse, rfl⟩

/-- C2 witness: with the `"h"` locks already flipped, both composite
updates abort with the not-found signal and are classified as acks; with a
fresh lock, the overall update commits flip and delta together. -/
theorem statsUpdate_atomic_idempotent_witness :
    updateOverallStats lockedState "active" "h" ⟨5, 5, 1, 1⟩ 0 =
      .error (.notFound "h") ∧
    classifyStatsUpdateResult
      (updateOverallStats lockedState "active" "h" ⟨5, 5, 1, 1⟩ 0) = .ack ∧
    updateFinalityProviderStats lockedState "active" "h" "fp" ⟨5, 5, 1, 1⟩ 0 =
      .error (.notFound "h") ∧
    updateOverallStats testState "active" "h" ⟨5, 5, 1, 1⟩ 0 = .ok
      { testState with
        statsLocks := fun k =>
          if k = constructStatsLockId "h" "active" then
            some (setLockField (NewStatsLockDocument "h:active" false false
              false) .overallStats true)
          else testState.statsLocks k
        overallStats :=
          (applyIncUpsert testState.overallStats
            (generateOverallStatsId 0) ⟨5, 5, 1, 1⟩) } := by
  have h1 := (statsUpdate_atomic_idempotent lockedState "h" "active" "fp"
    ⟨5, 5, 1, 1⟩ 0).1 (NewStatsLockDocument "h:active" true true true)
    (by decide) (by decide)
  have h2 := ((statsUpdate_atomic_idempotent lockedState "h" "active" "fp"
    ⟨5, 5, 1, 1⟩ 0).2.2.2.1 (NewStatsLockDocument "h:active" true true true)
    (by decide) (by decide)).1
  have h3 := (statsUpdate_atomic_idempotent testState "h" "active" "fp"
    ⟨5, 5, 1, 1⟩ 0).2.1 (NewStatsLockDocument "h:active" false false false)
    (by decide) (by decide)
  exact ⟨h1.1, h1.2, h2, h3⟩

/-! ## C4 — stats-lock creation defaults and false→true monotonicity -/

/-- C4: a stats-lock record is created with every family flag `false`, and
only when absent (`GetOrCreateStatsLock` returns an existing record
untouched); `updateStatsLockByFieldName` flips a flag only from `false` to
`true`; flipping an already-`true` flag matches no document and yields the
not-found signal with no committed state; and under either operation a
flag that is `true` never reverts. -/
theorem statsLock_invariant (st : DbState) (hash txType state : String)
    (f : StatsLockField) :
    (st.statsLocks (constructStatsLockId hash txType) = none →
      GetOrCreateStatsLock st hash txType =
        (NewStatsLockDocument (constructStatsLockId hash txType)
            false false false,
          { st with statsLocks :=
            (fun k => if k = constructStatsLockId hash txType then
              some (NewStatsLockDocument
                (constructStatsLockId hash txType) false false false)
            else st.statsLocks k) })) ∧
    (∀ doc, st.statsLocks (constructStatsLockId hash txType) = some doc →
      GetOrCreateStatsLock st hash txType = (doc, st)) ∧
    (∀ st', updateStatsLockByFieldName st hash state f = .ok st' →
      ∃ doc, st.statsLocks (constructStatsLockId hash state) = some doc ∧
        getLockField doc f = false ∧
        st' = { st with statsLocks :=
          (fun k => if k = constructStatsLockId hash state then
            some (setLockField doc f true)
          else st.statsLocks k) }) ∧
    (∀ doc, st.statsLocks (constructStatsLockId hash state) = some doc →
      getLockField doc f = true →
      updateStatsLockByFieldName st hash state f =
        .error (.notFound hash)) ∧
    (∀ id f', (st.statsLocks id).map (fun d => getLockField d f') =
        some true →
      ((GetOrCreateStatsLock st hash txType).2.statsLocks id).map
        (fun d => getLockField d f') = some true) ∧
    (∀ id f' st', updateStatsLockByFieldName st hash state f = .ok st' →
      (st.statsLocks id).map (fun d => getLockField d f') = some true →
      (st'.statsLocks id).map (fun d => getLockField d f') = some true) := by
  refine ⟨?_, ?_, ?_, ?_, ?_, ?_⟩
  · intro hnone
    simp only [GetOrCreateStatsLock]
    rw [hnone]
  · intro doc hdoc
    simp only [GetOrCreateStatsLock]
    rw [hdoc]
  · intro st' hok
    exact updateStatsLock_ok hok
  · intro doc hdoc htrue
    exact updateStatsLock_already_true hdoc htrue
  · intro id f' htrue
    rcases hcase : st.statsLocks (constructStatsLockId hash txType)
      with _ | doc
    · have h1 : GetOrCreateStatsLock st hash txType =
          (NewStatsLockDocument (constructStatsLockId hash txType)
              false false false,
            { st with statsLocks :=
              (fun k => if k = constructStatsLockId hash txType then
                some (NewStatsLockDocument
                  (constructStatsLockId hash txType) false false false)
              else st.statsLocks k) }) := by
        simp only [GetOrCreateStatsLock]
        rw [hcase]
      rw [h1]
      by_cases hid : id = constructStatsLockId hash txType
      · rw [hid, hcase] at htrue
        simp at htrue
      · simpa [hid] using htrue
    · have h2 : GetOrCreateStatsLock st hash txType = (doc, st) := by
        simp only [GetOrCreateStatsLock]
        rw [hcase]
      rw [h2]
      exact htrue
  · intro id f' st' hok htrue
    obtain ⟨doc, hdoc, hfalse, rfl⟩ := updateStatsLock_ok hok
    by_cases hid : id = constructStatsLockId hash state
    · rw [hid] at htrue ⊢
      rw [hdoc] at htrue
      have hget : getLockField doc f' = true := by simpa using htrue
      simp [getLockField_setLockField, hget]
    · simpa [hid] using htrue

/-- C4 witness: creating the absent lock `"x:active"` inserts the all-false
default; the existing (all-false) `"h:active"` record is returned
untouched; flipping `overall_stats` on the already-flipped `"h:active"`
record of `lockedState` is rejected; and the flipped `staker_stats` flag
survives a `GetOrCreateStatsLock` call. -/
theorem statsLock_invariant_witness :
    GetOrCreateStatsLock testState "x" "active" =
      (NewStatsLockDocument (constructStatsLockId "x" "active")
          false false false,
        { testState with statsLocks :=
          (fun k => if k = constructStatsLockId "x" "active" then
            some (NewStatsLockDocument
              (constructStatsLockId "x" "active") false false false)
          else testState.statsLocks k) }) ∧
    GetOrCreateStatsLock testState "h" "active" =
      (NewStatsLockDocument "h:active" false false false, testState) ∧
    updateStatsLockByFieldName lockedState "h" "active" .overallStats =
      .error (.notFound "h") ∧
    ((GetOrCreateStatsLock lockedState "h" "active").2.statsLocks
        "h:active").map (fun d => getLockField d .stakerStats) =
      some true := by
  refine ⟨?_, ?_, ?_, ?_⟩
  · exact (statsLock_invariant testState "x" "active" "active"
      .overallStats).1 (by decide)
  · exact (statsLock_invariant testState "h" "active" "active"
      .overallStats).2.1 (NewStatsLockDocument "h:active" false false false)
      (by decide)
  · exact (statsLock_invariant lockedState "h" "active" "active"
      .overallStats).2.2.2.1
      (NewStatsLockDocument "h:active" true true true) (by decide) (by decide)
  · exact (statsLock_invariant lockedState "h" "active" "active"
      .overallStats).2.2.2.2.1 "h:active" .stakerStats (by decide)

/-! ## C3 — out-of-order and duplicate Withdraw events -/

/-- C3 (spec-modelled processor, pinned by the integration tests
`TestProcessWithdrawStakingEventShouldTolerateEventMsgOutOfOrder` and
`TestShouldIgnoreWithdrawnEventIfAlreadyWithdrawn`): a Withdraw event
processed while the document is still `Active` or `UnbondingRequested`
leaves the document untouched and requests redelivery; once the document
is `Unbonded` (expiry accepted), a processed Withdraw event moves it to
`Withdrawn` exactly once — reprocessing the same event afterwards changes
nothing and acks as a duplicate, with no redelivery. -/
theorem withdraw_out_of_order_tolerance (doc : DelegationDocument) :
    ((doc.state = .active ∨ doc.state = .unbondingRequested) →
      processWithdrawStakingEvent doc = (doc, .retry)) ∧
    (doc.state = .unbonded →
      processWithdrawStakingEvent doc =
        ({ doc with state := .withdrawn }, .ack) ∧
      processWithdrawStakingEvent { doc with state := .withdrawn } =
        ({ doc with state := .withdrawn }, .ack)) ∧
    (doc.state = .withdrawn →
      processWithdrawStakingEvent doc = (doc, .ack)) := by
  refine ⟨?_, ?_, ?_⟩
  · rintro (hs | hs) <;>
      · unfold processWithdrawStakingEvent
        rw [hs]
  · intro hs
    constructor
    · unfold processWithdrawStakingEvent
      rw [hs]
    · unfold processWithdrawStakingEvent
      rfl
  · intro hs
    unfold processWithdrawStakingEvent
    rw [hs]

/-- C3 witness: the concrete run — Withdraw on an `Active` document is
retried without mutation; after the expiry (state `Unbonded`) the Withdraw
commits `Withdrawn`; a redelivered Withdraw then acks without change. -/
theorem withdraw_out_of_order_tolerance_witness :
    processWithdrawStakingEvent (testDelegation .active) =
      (testDelegation .active, .retry) ∧
    processWithdrawStakingEvent (testDelegation .unbonded) =
      (testDelegation .withdrawn, .ack) ∧
    processWithdrawStakingEvent (testDelegation .withdrawn) =
      (testDelegation .withdrawn, .ack) := by
  refine ⟨?_, ?_, ?_⟩
  · exact (withdraw_out_of_order_tolerance (testDelegation .active)).1
      (Or.inl rfl)
  · exact ((withdraw_out_of_order_tolerance
      (testDelegation .unbonded)).2.1 rfl).1
  · exact (withdraw_out_of_order_tolerance
      (testDelegation .withdrawn)).2.2 rfl

/-! ## C5 — idempotent creation of the active delegation -/

/-- C5 (store spec-modelled): when the store reports a duplicate key for
the staking tx hash, `SaveActiveStakingDelegation` returns `nil` and the
stored document is unchanged; an absent hash is inserted and also returns
`nil`; only a non-duplicate storage failure is mapped to an
internal-service error. -/
theorem saveActiveStakingDelegation_idempotent
    (store : String → Option DelegationDocument)
    (doc : DelegationDocument) :
    ((store doc.stakingTxHashHex).isSome →
      SaveActiveStakingDelegation store doc = (store, none)) ∧
    (store doc.stakingTxHashHex = none →
      SaveActiveStakingDelegation store doc =
        ((fun k => if k = doc.stakingTxHashHex then some doc else store k),
          none)) ∧
    classifySaveResult (.error .duplicateKey) = none ∧
    classifySaveResult (.ok ()) = none ∧
    (∀ e, IsDuplicateKeyError e = false →
      classifySaveResult (.error e) = some NewInternalServiceError) := by
  refine ⟨?_, ?_, rfl, rfl, ?_⟩
  · intro hsome
    rcases hcase : store doc.stakingTxHashHex with _ | d
    · rw [hcase] at hsome
      cases hsome
    · unfold SaveActiveStakingDelegation dbSaveActiveStakingDelegation
      rw [hcase]
      rfl
  · intro hnone
    unfold SaveActiveStakingDelegation dbSaveActiveStakingDelegation
    rw [hnone]
    rfl
  · intro e he
    unfold classifySaveResult
    simp [he]

/-- C5 witness: saving a delegation whose hash `"h"` already exists leaves
the store untouched and reports success; a plain storage failure maps to
the internal-service error. -/
theorem saveActiveStakingDelegation_idempotent_witness :
    SaveActiveStakingDelegation testDelegationStore
      (testDelegation .active) = (testDelegationStore, none) ∧
    classifySaveResult (.error .otherStorage) =
      some NewInternalServiceError := by
  constructor
  · exact (saveActiveStakingDelegation_idempotent testDelegationStore
      (testDelegation .active)).1 (by decide)
  · exact (saveActiveStakingDelegation_idempotent testDelegationStore
      (testDelegation .active)).2.2.2.2 .otherStorage (by decide)

/-! ## C6 — pagination-token errors on the staker listing -/

/-- C6: `DelegationsByStakerPk` yields HTTP 400 BadRequest exactly when
the store reports an invalid pagination token, an internal-service error
for any other storage failure, and on success the mapped page plus the
continuation token; an error case never carries data or a cursor. -/
theorem delegationsByStakerPk_error_mapping (parseTs : Int → String)
    (dbResult : Except DbError (List DelegationDocument × String)) :
    (dbResult = .error .invalidPaginationToken →
      DelegationsByStakerPk parseTs dbResult =
        (([], ""), some (NewApiError 400 .badRequest))) ∧
    (∀ e, dbResult = .error e → IsInvalidPaginationTokenError e = false →
      DelegationsByStakerPk parseTs dbResult =
        (([], ""), some NewInternalServiceError)) ∧
    (∀ docs tok, dbResult = .ok (docs, tok) →
      DelegationsByStakerPk parseTs dbResult =
        ((docs.map (FromDelegationDocument parseTs), tok), none)) ∧
    (∀ err, (DelegationsByStakerPk parseTs dbResult).2 = some err →
      (DelegationsByStakerPk parseTs dbResult).1 = ([], "")) := by
  refine ⟨?_, ?_, ?_, ?_⟩
  · rintro rfl
    rfl
  · rintro e rfl he
    unfold DelegationsByStakerPk
    simp [he]
  · rintro docs tok rfl
    rfl
  · intro err herr
    rcases dbResult with e | ⟨docs, tok⟩
    · unfold DelegationsByStakerPk
      by_cases hinv : IsInvalidPaginationTokenError e = true
      · simp [hinv]
      · simp [hinv]
    · unfold DelegationsByStakerPk at herr
      simp at herr

/-- C6 witness: the three store outcomes at concrete inputs. -/
theorem delegationsByStakerPk_error_mapping_witness :
    DelegationsByStakerPk (fun _ => "ts")
        (.error .invalidPaginationToken) =
      (([], ""), some (NewApiError 400 .badRequest)) ∧
    DelegationsByStakerPk (fun _ => "ts") (.error .otherStorage) =
      (([], ""), some NewInternalServiceError) ∧
    DelegationsByStakerPk (fun _ => "ts")
        (.ok ([testDelegation .active], "next")) =
      (([FromDelegationDocument (fun _ => "ts") (testDelegation .active)],
        "next"), none) := by
  refine ⟨?_, ?_, ?_⟩
  · exact (delegationsByStakerPk_error_mapping (fun _ => "ts")
      (.error .invalidPaginationToken)).1 rfl
  · exact (delegationsByStakerPk_error_mapping (fun _ => "ts")
      (.error .otherStorage)).2.1 .otherStorage rfl (by decide)
  · exact (delegationsByStakerPk_error_mapping (fun _ => "ts")
      (.ok ([testDelegation .active], "next"))).2.2.1
      [testDelegation .active] "next" rfl

/-! ## C9 — point lookup error propagation -/

/-- C9: `GetDelegation` returns the document when found, HTTP 404 NotFound
exactly when the store reports not-found, and an internal-service error
otherwise; `GetDelegationByTxHash` propagates each outcome unchanged and
wraps the found document into its public shape. -/
theorem getDelegation_error_mapping (parseTs : Int → String)
    (parseResult : Except ApiError String)
    (dbResult : Except DbError DelegationDocument) :
    (∀ key, dbResult = .error (.notFound key) →
      GetDelegation dbResult = .error (NewApiError 404 .notFound)) ∧
    (∀ e, dbResult = .error e → IsNotFoundError e = false →
      GetDelegation dbResult = .error NewInternalServiceError) ∧
    (∀ d, dbResult = .ok d → GetDelegation dbResult = .ok d) ∧
    (∀ e hash, GetDelegation dbResult = .error e → parseResult = .ok hash →
      GetDelegationByTxHash parseTs parseResult dbResult = .error e) ∧
    (∀ d hash, parseResult = .ok hash → dbResult = .ok d →
      GetDelegationByTxHash parseTs parseResult dbResult =
        .ok (FromDelegationDocument parseTs d)) := by
  refine ⟨?_, ?_, ?_, ?_, ?_⟩
  · rintro key rfl
    rfl
  · rintro e rfl he
    unfold GetDelegation
    simp [he]
  · rintro d rfl
    rfl
  · rintro e hash herr rfl
    unfold GetDelegationByTxHash
    rw [herr]
  · rintro d hash rfl rfl
    rfl

/-- C9 witness: the store outcomes at concrete inputs, propagated through
the handler. -/
theorem getDelegation_error_mapping_witness :
    GetDelegation (.error (.notFound "h")) =
      .error (NewApiError 404 .notFound) ∧
    GetDelegation (.error .otherStorage) =
      .error NewInternalServiceError ∧
    GetDelegation (.ok (testDelegation .active)) =
      .ok (testDelegation .active) ∧
    GetDelegationByTxHash (fun _ => "ts") (.ok "h")
        (.error (.notFound "h")) =
      .error (NewApiError 404 .notFound) ∧
    GetDelegationByTxHash (fun _ => "ts") (.ok "h")
        (.ok (testDelegation .active)) =
      .ok (FromDelegationDocument (fun _ => "ts")
        (testDelegation .active)) := by
  refine ⟨?_, ?_, ?_, ?_, ?_⟩
  · exact (getDelegation_error_mapping (fun _ => "ts") (.ok "h")
      (.error (.notFound "h"))).1 "h" rfl
  · exact (getDelegation_error_mapping (fun _ => "ts") (.ok "h")
      (.error .otherStorage)).2.1 .otherStorage rfl (by decide)
  · exact (getDelegation_error_mapping (fun _ => "ts") (.ok "h")
      (.ok (testDelegation .active))).2.2.1 (testDelegation .active) rfl
  · refine (getDelegation_error_mapping (fun _ => "ts") (.ok "h")
      (.error (.notFound "h"))).2.2.2.1 _ "h" ?_ rfl
    exact (getDelegation_error_mapping (fun _ => "ts") (.ok "h")
      (.error (.notFound "h"))).1 "h" rfl
  · exact (getDelegation_error_mapping (fun _ => "ts") (.ok "h")
      (.ok (testDelegation .active))).2.2.2.2 (testDelegation .active)
      "h" rfl rfl

/-! ## Lemmas about sharded ids and batching -/

theorem generateFpStatsId_data (pk : String) (i : Nat) :
    (generateFinalityProviderStatsId pk i).data =
      pk.data ++ ':' :: (natToDecimal i).data := by
  unfold generateFinalityProviderStatsId
  rw [string_data_append, string_data_append]
  simp [string_data_append]

theorem extract_roundTrip {pk : String} (hpk : ':' ∉ pk.data) (i : Nat) :
    extractFinalityProviderPkHexFromStatsId
      (generateFinalityProviderStatsId pk i) = some pk := by
  unfold extractFinalityProviderPkHexFromStatsId
  rw [generateFpStatsId_data, splitOnChar_append ':' pk.data _ hpk,
    splitOnChar_of_not_mem ':' _ (natToDecimal_no_colon i)]

theorem extract_colon_fails {pk : String} (hpk : ':' ∈ pk.data) (i : Nat) :
    extractFinalityProviderPkHexFromStatsId
      (generateFinalityProviderStatsId pk i) = none := by
  have hcount :
      2 ≤ ((generateFinalityProviderStatsId pk i).data).count ':' := by
    rw [generateFpStatsId_data]
    have h1 : 0 < pk.data.count ':' := List.count_pos_iff.2 hpk
    simp only [List.count_append, List.count_cons]
    simp
    omega
  have hlen : 3 ≤ (splitOnChar ':'
      (generateFinalityProviderStatsId pk i).data).length := by
    rw [length_splitOnChar]
    omega
  unfold extractFinalityProviderPkHexFromStatsId
  rcases hsp : splitOnChar ':' (generateFinalityProviderStatsId pk i).data
    with _ | ⟨a, _ | ⟨b, _ | ⟨c, rest⟩⟩⟩ <;> rw [hsp] at hlen <;>
    first
      | rfl
      | simp at hlen

theorem chunksFuel_flatten (b : Nat) :
    ∀ (fuel : Nat) (l : List String), l.length ≤ fuel →
    (chunksFuel b fuel l).flatten = l := by
  intro fuel
  induction fuel with
  | zero =>
    intro l hl
    rcases l with _ | ⟨x, xs⟩
    · rfl
    · simp at hl
  | succ fuel ih =>
    intro l hl
    rcases l with _ | ⟨x, xs⟩
    · rfl
    · simp only [List.length_cons] at hl
      simp only [chunksFuel, List.flatten_cons]
      rw [ih (xs.drop b) (by simp only [List.length_drop]; omega)]
      simp [List.cons_append, List.take_append_drop]

theorem chunks_flatten (bs : Nat) (l : List String) :
    (chunks bs l).flatten = l := by
  unfold chunks
  cases bs
  · simp
  · exact chunksFuel_flatten _ l.length l (le_refl _)

theorem accumulateFpDocs_none :
    ∀ (ds : List (String × FinalityProviderStatsDocument))
      (m : String → Option FinalityProviderStatsDocument),
    (∃ x ∈ ds, extractFinalityProviderPkHexFromStatsId x.1 = none) →
    accumulateFpDocs m ds = none := by
  intro ds
  induction ds with
  | nil =>
    rintro m ⟨x, hx, _⟩
    cases hx
  | cons hd tl ih =>
    obtain ⟨id, d⟩ := hd
    rintro m ⟨x, hx, hex⟩
    rcases List.mem_cons.1 hx with rfl | hx'
    · simp only [accumulateFpDocs]
      simp only at hex
      rw [hex]
    · simp only [accumulateFpDocs]
      rcases hext : extractFinalityProviderPkHexFromStatsId id with _ | pk
      · rfl
      · exact ih _ ⟨x, hx', hex⟩

theorem findFpBatches_none (cfg : Config) (st : DbState) :
    ∀ (batches : List (List String))
      (m : String → Option FinalityProviderStatsDocument),
    (∃ b ∈ batches, ∃ x ∈ matchedFpDocs cfg st b,
      extractFinalityProviderPkHexFromStatsId x.1 = none) →
    findFpBatches cfg st m batches = none := by
  intro batches
  induction batches with
  | nil =>
    rintro m ⟨b, hb, _⟩
    cases hb
  | cons hd tl ih =>
    rintro m ⟨b, hb, hbad⟩
    rcases List.mem_cons.1 hb with rfl | hb'
    · unfold findFpBatches
      rw [accumulateFpDocs_none _ m hbad]
    · unfold findFpBatches
      rcases hacc : accumulateFpDocs m (matchedFpDocs cfg st hd)
        with _ | m1
      · rfl
      · exact ih m1 ⟨b, hb', hbad⟩

/-! ## C10 — provider-pk / shard-id round trip -/

/-- C10: for a provider pk containing no `:`, extracting the pk from the
generated sharded id `pk:i` returns exactly `pk`; for a pk containing
`:`, extraction of the generated id fails with the invalid-format error,
and consequently `FindFinalityProviderStatsByPkHex` fails whenever such a
provider is queried and one of its shard documents is stored. -/
theorem fpStatsId_roundTrip (cfg : Config) (st : DbState)
    (pks : List String) (pk : String) (i : Nat) :
    (':' ∉ pk.data → i < cfg.logicalShardCount →
      extractFinalityProviderPkHexFromStatsId
        (generateFinalityProviderStatsId pk i) = some pk) ∧
    (':' ∈ pk.data →
      extractFinalityProviderPkHexFromStatsId
        (generateFinalityProviderStatsId pk i) = none) ∧
    (':' ∈ pk.data → pk ∈ pks → i < cfg.logicalShardCount →
      (st.finalityProviderStats
        (generateFinalityProviderStatsId pk i)).isSome = true →
      FindFinalityProviderStatsByPkHex cfg st pks = none) := by
  refine ⟨fun hpk _ => extract_roundTrip hpk i,
    fun hpk => extract_colon_fails hpk i, ?_⟩
  intro hpk hmem hi hdoc
  obtain ⟨d, hd⟩ := Option.isSome_iff_exists.1 hdoc
  have hpk' : pk ∈ (chunks cfg.dbBatchSizeLimit pks).flatten := by
    rw [chunks_flatten]
    exact hmem
  obtain ⟨batch, hbatch, hpkb⟩ := List.mem_flatten.1 hpk'
  have hid : generateFinalityProviderStatsId pk i ∈
      (getAllShardedFinalityProviderId cfg batch).dedup := by
    rw [List.mem_dedup]
    exact List.mem_flatMap.2
      ⟨pk, hpkb, List.mem_map.2 ⟨i, List.mem_range.2 hi, rfl⟩⟩
  have hpair : (generateFinalityProviderStatsId pk i, d) ∈
      matchedFpDocs cfg st batch := by
    unfold matchedFpDocs
    exact List.mem_filterMap.2
      ⟨generateFinalityProviderStatsId pk i, hid, by rw [hd]; rfl⟩
  exact findFpBatches_none cfg st _ _
    ⟨batch, hbatch,
      ⟨(generateFinalityProviderStatsId pk i, d), hpair,
        extract_colon_fails hpk i⟩⟩

/-- C10 witness: `"ab:1"` round-trips to `"ab"`; the malformed provider
`"a:b"` fails extraction, and querying it with a stored shard document
`"a:b:0"` fails the whole fan-in. -/
theorem fpStatsId_roundTrip_witness :
    extractFinalityProviderPkHexFromStatsId
      (generateFinalityProviderStatsId "ab" 1) = some "ab" ∧
    extractFinalityProviderPkHexFromStatsId
      (generateFinalityProviderStatsId "a:b" 0) = none ∧
    FindFinalityProviderStatsByPkHex testConfig
      ⟨testLocks, fun _ => none,
        fun k => if k = "a:b:0" then some ⟨1, 1, 1, 1⟩ else none⟩
      ["a:b"] = none := by
  refine ⟨?_, ?_, ?_⟩
  · exact (fpStatsId_roundTrip testConfig testState [] "ab" 1).1
      (by decide) (by decide)
  · exact (fpStatsId_roundTrip testConfig testState [] "a:b" 0).2.1
      (by decide)
  · exact (fpStatsId_roundTrip testConfig
      ⟨testLocks, fun _ => none,
        fun k => if k = "a:b:0" then some ⟨1, 1, 1, 1⟩ else none⟩
      ["a:b"] "a:b" 0).2.2 (by decide) (by decide) (by decide) (by decide)

/-! ## Lemmas for the per-provider fan-in (C8) -/

theorem accumulateFpDocs_spec :
    ∀ (ds : List (String × FinalityProviderStatsDocument))
      (m : String → Option FinalityProviderStatsDocument),
    (∀ x ∈ ds, (extractFinalityProviderPkHexFromStatsId x.1).isSome = true) →
    accumulateFpDocs m ds = some (fun pk =>
      if (ds.filter fun x =>
          decide (extractFinalityProviderPkHexFromStatsId x.1 =
            some pk)) = [] then m pk
      else some ((m pk).getD 0 +
        ((ds.filter fun x =>
          decide (extractFinalityProviderPkHexFromStatsId x.1 =
            some pk)).map Prod.snd).sum)) := by
  intro ds
  induction ds with
  | nil =>
    intro m _
    simp [accumulateFpDocs]
  | cons hd tl ih =>
    obtain ⟨id, d⟩ := hd
    intro m hexts
    have hid : (extractFinalityProviderPkHexFromStatsId id).isSome = true :=
      hexts (id, d) (List.mem_cons_self _ _)
    obtain ⟨pk0, hpk0⟩ := Option.isSome_iff_exists.1 hid
    simp only [accumulateFpDocs]
    rw [hpk0]
    show accumulateFpDocs (fun k =>
      if k = pk0 then
        some (match m pk0 with
          | some existing => existing + d
          | none => d)
      else m k) tl = _
    set m1 : String → Option FinalityProviderStatsDocument := fun k =>
      if k = pk0 then
        some (match m pk0 with
          | some existing => existing + d
          | none => d)
      else m k with hm1
    have hm1pk0 : m1 pk0 = some ((m pk0).getD 0 + d) := by
      rw [hm1]
      simp only [if_pos rfl]
      rcases m pk0 with _ | e
      · simp
      · simp
    rw [ih m1 (fun x hx => hexts x (List.mem_cons_of_mem _ hx))]
    congr 1
    funext pk
    by_cases hpk : pk0 = pk
    · subst hpk
      have hfcons : ((id, d) :: tl).filter (fun x =>
          decide (extractFinalityProviderPkHexFromStatsId x.1 =
            some pk0)) =
          (id, d) :: tl.filter (fun x =>
            decide (extractFinalityProviderPkHexFromStatsId x.1 =
              some pk0)) := by
        rw [List.filter_cons]
        simp [hpk0]
      rw [hfcons]
      rcases hft : tl.filter (fun x =>
          decide (extractFinalityProviderPkHexFromStatsId x.1 =
            some pk0)) with _ | ⟨y, ys⟩
      · simp only [hft, if_pos rfl]
        rw [hm1pk0]
        simp
      · rw [hft, if_neg (by simp), if_neg (by simp), hm1pk0]
        simp only [Option.getD_some, List.map_cons, List.sum_cons]
        congr 1
        rw [add_assoc]
    · have hfcons : ((id, d) :: tl).filter (fun x =>
          decide (extractFinalityProviderPkHexFromStatsId x.1 =
            some pk)) =
          tl.filter (fun x =>
            decide (extractFinalityProviderPkHexFromStatsId x.1 =
              some pk)) := by
        rw [List.filter_cons]
        simp [hpk0, hpk]
      have hne : pk ≠ pk0 := fun h => hpk h.symm
      have hm1pk : m1 pk = m pk := by
        rw [hm1]
        simp [hne]
      rw [hfcons, hm1pk]

theorem mem_getAllShardedFinalityProviderId {cfg : Config}
    {batch : List String} {id : String} :
    id ∈ getAllShardedFinalityProviderId cfg batch ↔
      ∃ pk ∈ batch, ∃ i < cfg.logicalShardCount,
        id = generateFinalityProviderStatsId pk i := by
  unfold getAllShardedFinalityProviderId
  rw [List.mem_flatMap]
  constructor
  · rintro ⟨pk, hpk, hmem⟩
    obtain ⟨i, hi, rfl⟩ := List.mem_map.1 hmem
    exact ⟨pk, hpk, i, List.mem_range.1 hi, rfl⟩
  · rintro ⟨pk, hpk, i, hi, rfl⟩
    exact ⟨pk, hpk, List.mem_map.2 ⟨i, List.mem_range.2 hi, rfl⟩⟩

theorem filter_filterMap_keys (fp : String → Option OverallStatsDocument)
    (q : String → Bool) :
    ∀ l : List String,
    (l.filterMap (fun id => (fp id).map (fun d => (id, d)))).filter
        (fun x => q x.1) =
      (l.filter q).filterMap (fun id => (fp id).map (fun d => (id, d))) := by
  intro l
  induction l with
  | nil => rfl
  | cons a l ih =>
    rcases hfa : fp a with _ | d <;> rcases hq : q a
    all_goals
      simp [List.filterMap_cons, List.filter_cons, hfa, hq, ih]

theorem map_snd_filterMap (fp : String → Option OverallStatsDocument) :
    ∀ l : List String,
    (l.filterMap (fun id => (fp id).map (fun d => (id, d)))).map Prod.snd =
      l.filterMap fp := by
  intro l
  induction l with
  | nil => rfl
  | cons a l ih =>
    rcases hfa : fp a with _ | d
    all_goals
      simp [List.filterMap_cons, hfa, ih]

theorem sum_filterMap (fp : String → Option OverallStatsDocument) :
    ∀ l : List String, (l.filterMap fp).sum = sumDocs fp l := by
  intro l
  induction l with
  | nil => rfl
  | cons a l ih =>
    rw [List.filterMap_cons, sumDocs_cons]
    rcases hfa : fp a with _ | d
    · rw [ih]
      simp
    · simp only [List.sum_cons, ih]
      simp

theorem sumDocs_perm (m : String → Option OverallStatsDocument)
    {l1 l2 : List String} (h : List.Perm l1 l2) :
    sumDocs m l1 = sumDocs m l2 :=
  (h.map fun id => (m id).getD 0).sum_eq

theorem accumulateFpDocs_batch (cfg : Config) (st : DbState)
    (batch : List String)
    (m : String → Option FinalityProviderStatsDocument)
    (hcf : ∀ pk ∈ batch, ':' ∉ pk.data)
    (hfresh : ∀ pk ∈ batch, m pk = none) :
    accumulateFpDocs m (matchedFpDocs cfg st batch) =
      some (fun pk => if pk ∈ batch ∧ fpHasDoc cfg st pk then
        some (sumDocs st.finalityProviderStats (fpShardIds cfg pk).dedup)
      else m pk) := by
  have hxmem : ∀ x ∈ matchedFpDocs cfg st batch,
      ∃ pk' ∈ batch, ∃ i < cfg.logicalShardCount,
        x.1 = generateFinalityProviderStatsId pk' i ∧
        extractFinalityProviderPkHexFromStatsId x.1 = some pk' := by
    intro x hx
    obtain ⟨id, hid, hmap⟩ := List.mem_filterMap.1 hx
    rcases hfp : st.finalityProviderStats id with _ | d
    · rw [hfp] at hmap
      cases hmap
    · rw [hfp] at hmap
      have hx1 : x = (id, d) := (Option.some.inj hmap).symm
      obtain ⟨pk', hpk', i, hi, rfl⟩ :=
        mem_getAllShardedFinalityProviderId.1 (List.mem_dedup.1 hid)
      exact ⟨pk', hpk', i, hi, by rw [hx1],
        by rw [hx1]; exact extract_roundTrip (hcf pk' hpk') i⟩
  have hexts : ∀ x ∈ matchedFpDocs cfg st batch,
      (extractFinalityProviderPkHexFromStatsId x.1).isSome = true := by
    intro x hx
    obtain ⟨pk', _, i, _, _, hex⟩ := hxmem x hx
    rw [hex]
    rfl
  rw [accumulateFpDocs_spec _ m hexts]
  congr 1
  funext pk
  have hflt : (matchedFpDocs cfg st batch).filter (fun x =>
      decide (extractFinalityProviderPkHexFromStatsId x.1 = some pk)) =
      (((getAllShardedFinalityProviderId cfg batch).dedup).filter
        (fun id => decide (extractFinalityProviderPkHexFromStatsId id =
          some pk))).filterMap
        (fun id => (st.finalityProviderStats id).map (fun d => (id, d))) :=
    filter_filterMap_keys st.finalityProviderStats
      (fun id => decide (extractFinalityProviderPkHexFromStatsId id =
        some pk))
      ((getAllShardedFinalityProviderId cfg batch).dedup)
  by_cases hpk : pk ∈ batch
  · -- the filtered id list is a permutation of the provider's shard ids
    have hLR : ∀ id,
        id ∈ ((getAllShardedFinalityProviderId cfg batch).dedup).filter
          (fun id => decide (extractFinalityProviderPkHexFromStatsId id =
            some pk)) ↔
        id ∈ (fpShardIds cfg pk).dedup := by
      intro id
      rw [List.mem_filter, List.mem_dedup, List.mem_dedup]
      constructor
      · rintro ⟨hall, hq⟩
        obtain ⟨pk', hpk', i, hi, rfl⟩ :=
          mem_getAllShardedFinalityProviderId.1 hall
        have hex := extract_roundTrip (hcf pk' hpk') i
        have : pk' = pk := by
          have := of_decide_eq_true hq
          rw [hex] at this
          exact Option.some.inj this
        subst this
        exact List.mem_map.2 ⟨i, List.mem_range.2 hi, rfl⟩
      · intro hmem
        obtain ⟨i, hi, rfl⟩ := List.mem_map.1 hmem
        refine ⟨mem_getAllShardedFinalityProviderId.2
          ⟨pk, hpk, i, List.mem_range.1 hi, rfl⟩, ?_⟩
        exact decide_eq_true (extract_roundTrip (hcf pk hpk) i)
    have hperm : List.Perm
        (((getAllShardedFinalityProviderId cfg batch).dedup).filter
          (fun id => decide (extractFinalityProviderPkHexFromStatsId id =
            some pk)))
        ((fpShardIds cfg pk).dedup) :=
      (List.perm_ext_iff_of_nodup
        ((List.nodup_dedup _).filter _) (List.nodup_dedup _)).2 hLR
    have hsum : (((matchedFpDocs cfg st batch).filter (fun x =>
        decide (extractFinalityProviderPkHexFromStatsId x.1 =
          some pk))).map Prod.snd).sum =
        sumDocs st.finalityProviderStats (fpShardIds cfg pk).dedup := by
      rw [hflt, map_snd_filterMap, sum_filterMap]
      exact sumDocs_perm _ hperm
    by_cases hhas : fpHasDoc cfg st pk = true
    · -- some shard document exists: the filtered doc list is nonempty
      obtain ⟨id, hidR, hids⟩ := List.any_eq_true.1 hhas
      obtain ⟨d, hd⟩ := Option.isSome_iff_exists.1 hids
      have hidL := (hLR id).2 hidR
      have hmemflt : (id, d) ∈ (matchedFpDocs cfg st batch).filter
          (fun x => decide (extractFinalityProviderPkHexFromStatsId x.1 =
            some pk)) := by
        rw [hflt]
        exact List.mem_filterMap.2 ⟨id, hidL, by rw [hd]; rfl⟩
      rw [if_neg (List.ne_nil_of_mem hmemflt), if_pos ⟨hpk, hhas⟩,
        hfresh pk hpk, hsum]
      simp
    · -- no shard document: the filtered doc list is empty
      have hnone : ∀ id ∈ (fpShardIds cfg pk).dedup,
          st.finalityProviderStats id = none := by
        intro id hid
        rcases hfp : st.finalityProviderStats id with _ | d
        · rfl
        · exact absurd (List.any_eq_true.2 ⟨id, hid, by rw [hfp]; rfl⟩) hhas
      have hempty : (matchedFpDocs cfg st batch).filter (fun x =>
          decide (extractFinalityProviderPkHexFromStatsId x.1 =
            some pk)) = [] := by
        rw [hflt]
        rw [List.filterMap_eq_nil_iff]
        intro id hid
        rw [hnone id ((hLR id).1 hid)]
        rfl
      rw [if_pos hempty, if_neg (fun hand => hhas hand.2)]
  · -- pk not requested in this batch: nothing matches it
    have hempty : (matchedFpDocs cfg st batch).filter (fun x =>
        decide (extractFinalityProviderPkHexFromStatsId x.1 =
          some pk)) = [] := by
      rw [List.filter_eq_nil_iff]
      intro x hx
      obtain ⟨pk', hpk', i, _, _, hex⟩ := hxmem x hx
      intro hq
      have := of_decide_eq_true hq
      rw [hex] at this
      exact hpk (Option.some.inj this ▸ hpk')
    rw [if_pos hempty, if_neg (fun hand => hpk hand.1)]

theorem findFpBatches_spec (cfg : Config) (st : DbState) :
    ∀ (batches : List (List String))
      (m : String → Option FinalityProviderStatsDocument),
    (∀ pk ∈ batches.flatten, ':' ∉ pk.data) →
    batches.flatten.Nodup →
    (∀ pk ∈ batches.flatten, m pk = none) →
    findFpBatches cfg st m batches = some (fun pk =>
      if pk ∈ batches.flatten ∧ fpHasDoc cfg st pk then
        some (sumDocs st.finalityProviderStats (fpShardIds cfg pk).dedup)
      else m pk) := by
  intro batches
  induction batches with
  | nil =>
    intro m _ _ _
    rfl
  | cons b bs ih =>
    intro m hcf hnd hfresh
    simp only [List.flatten_cons] at hcf hnd hfresh ⊢
    have hndbs := (List.nodup_append.1 hnd).2.1
    have hdisj := (List.nodup_append.1 hnd).2.2
    have hstep := accumulateFpDocs_batch cfg st b m
      (fun pk hpk => hcf pk (List.mem_append.2 (Or.inl hpk)))
      (fun pk hpk => hfresh pk (List.mem_append.2 (Or.inl hpk)))
    set m1 : String → Option FinalityProviderStatsDocument := fun pk =>
      if pk ∈ b ∧ fpHasDoc cfg st pk then
        some (sumDocs st.finalityProviderStats (fpShardIds cfg pk).dedup)
      else m pk with hm1
    have hfresh1 : ∀ pk ∈ bs.flatten, m1 pk = none := by
      intro pk hpk
      have hnb : pk ∉ b := fun hin => hdisj hin hpk
      simp only [hm1]
      rw [if_neg (fun hand => hnb hand.1)]
      exact hfresh pk (List.mem_append.2 (Or.inr hpk))
    unfold findFpBatches
    rw [hstep]
    show findFpBatches cfg st m1 bs = _
    rw [ih m1 (fun pk hpk => hcf pk (List.mem_append.2 (Or.inr hpk)))
      hndbs hfresh1]
    congr 1
    funext pk
    by_cases h1 : pk ∈ bs.flatten ∧ fpHasDoc cfg st pk
    · rw [if_pos h1, if_pos ⟨List.mem_append.2 (Or.inr h1.1), h1.2⟩]
    · rw [if_neg h1]
      simp only [hm1]
      by_cases h2 : pk ∈ b ∧ fpHasDoc cfg st pk
      · rw [if_pos h2, if_pos ⟨List.mem_append.2 (Or.inl h2.1), h2.2⟩]
      · rw [if_neg h2, if_neg ?_]
        rintro ⟨hmem, hhas⟩
        rcases List.mem_append.1 hmem with h | h
        · exact h2 ⟨h, hhas⟩
        · exact h1 ⟨h, hhas⟩

/-! ## C8 — batching-independent per-provider fan-in -/

/-- C8 (amended: for pairwise-distinct provider pks containing no `:`).
`FindFinalityProviderStatsByPkHex` returns exactly the canonical mapping:
a requested pk with at least one stored shard document maps to the sum of
the four counters over exactly its `LogicalShardCount` shard keys
`pk:0 … pk:(ShardCount-1)`, and a pk with no stored shard document is
absent from the mapping.  Since the canonical mapping does not mention
`DbBatchSizeLimit`, the result is independent of the batch size. -/
theorem findFpStats_canonical (cfg : Config) (st : DbState)
    (pks : List String)
    (hbs : 1 ≤ cfg.dbBatchSizeLimit)
    (hnd : pks.Nodup)
    (hcf : ∀ pk ∈ pks, ':' ∉ pk.data) :
    FindFinalityProviderStatsByPkHex cfg st pks =
      some (canonicalFpMap cfg st pks) := by
  unfold FindFinalityProviderStatsByPkHex
  rw [findFpBatches_spec cfg st (chunks cfg.dbBatchSizeLimit pks) _
    (by rw [chunks_flatten]; exact hcf)
    (by rw [chunks_flatten]; exact hnd)
    (fun _ _ => rfl)]
  congr 1
  funext pk
  unfold canonicalFpMap
  rw [chunks_flatten]

/-- C8 witness: two distinct providers `"a"`, `"b"`, one stored shard
document `"a:0"`, two logical shards, batch size one: the fan-in equals
the canonical mapping. -/
theorem findFpStats_canonical_witness :
    FindFinalityProviderStatsByPkHex testConfig testFpState ["a", "b"] =
      some (canonicalFpMap testConfig testFpState ["a", "b"]) :=
  findFpStats_canonical testConfig testFpState ["a", "b"]
    (by decide) (by decide) (by decide)

/-- C8 counterexample to the claim over every pk list: with the duplicated
list `["a", "a"]` and one stored shard document `"a:0"`, batch size 1
fetches and sums that document once per batch (twice), while batch size 2
dedups the `$in` fan-out inside a single query and sums it once — the
mappings differ at `"a"`. -/
theorem findFpStats_batching_counterexample :
    (FindFinalityProviderStatsByPkHex batchOneConfig testFpState
        ["a", "a"]).map (fun m => m "a") =
      some (some ⟨2, 4, 6, 8⟩) ∧
    (FindFinalityProviderStatsByPkHex batchTwoConfig testFpState
        ["a", "a"]).map (fun m => m "a") =
      some (some ⟨1, 2, 3, 4⟩) ∧
    (⟨2, 4, 6, 8⟩ : FinalityProviderStatsDocument) ≠ ⟨1, 2, 3, 4⟩ := by
  refine ⟨?_, ?_, ?_⟩
  · rfl
  · rfl
  · decide

end StakingApi
